import Mathlib

set_option linter.unusedVariables false

/-!
Shallow embedding of the execution core of the repository (the
`operate-enhanced` subsystem): the `SecurityGuardian` validator
(`operate/security/guardian.py`), the LRU cache
(`operate/core/performance.py`), the `StateManager` with checkpoints and
transactions (`operate/state/manager.py`), and the `OperationOrchestrator`
(`operate/core/orchestrator.py`).

Conventions of the embedding:
* Python dicts become association lists keyed by `String`; insertion of an
  existing key replaces the value in place, a new key is appended at the end
  (Python dict ordering).
* Wall-clock instants (`datetime.utcnow()`) are abstract `Nat` values passed
  explicitly to every operation that reads the clock.
* External collaborators are parameters: the regular-expression engine of the
  guardian is a function `String → String → Bool` (pattern, text), the
  `ActionExecutor` of the orchestrator is a function from operation id and
  attempt number to an outcome.
* Python truthiness is modelled explicitly where the source relies on it.
-/

namespace Operate

/-- Python-style dynamic value used for `metadata` maps and `Action.value`,
with Python truthiness and `str()` casting. -/
inductive MVal where
  | bool (b : Bool)
  | str (s : String)
  | num (n : Nat)
deriving DecidableEq, Repr

/-- Python truthiness of an `MVal`. -/
def MVal.truthy : MVal → Bool
  | .bool b => b
  | .str s => !(s == "")
  | .num n => !(n == 0)

/-- Python `str()` of an `MVal`. -/
def MVal.toPyStr : MVal → String
  | .bool b => if b then "True" else "False"
  | .str s => s
  | .num n => toString n

/-- Truthiness of `dict.get(key)`: `None` (absent) is falsy. -/
def truthyOpt : Option MVal → Bool
  | none => false
  | some v => v.truthy

/-- Python `dict.get(key)` on an association list. -/
def pyGet {α : Type} (m : List (String × α)) (k : String) : Option α :=
  (m.find? (fun p => p.1 == k)).map (fun p => p.2)

/-- Python `dict[key] = value` on an association list: replace in place if the
key exists, else append. -/
def dictSet {α : Type} (m : List (String × α)) (k : String) (v : α) :
    List (String × α) :=
  if m.any (fun p => p.1 == k) then
    m.map (fun p => if p.1 == k then (k, v) else p)
  else m ++ [(k, v)]

/-- Action types, from `interfaces/base.py` (`ActionType`). -/
inductive ActionType where
  | click
  | type
  | key
  | screenshot
  | wait
  | scroll
  | drag
  | hover
  | execute
  | github
deriving DecidableEq, Repr

/-- Python `str()` of an `ActionType` enum member (used in the permission
cache key). -/
def ActionType.pyStr : ActionType → String
  | .click => "ActionType.CLICK"
  | .type => "ActionType.TYPE"
  | .key => "ActionType.KEY"
  | .screenshot => "ActionType.SCREENSHOT"
  | .wait => "ActionType.WAIT"
  | .scroll => "ActionType.SCROLL"
  | .drag => "ActionType.DRAG"
  | .hover => "ActionType.HOVER"
  | .execute => "ActionType.EXECUTE"
  | .github => "ActionType.GITHUB"

/-- An action, from `interfaces/base.py` (`Action`). A `Coordinate` target is
represented by its string form: the embedded code paths only compare targets
for equality and cast them to strings. -/
structure Action where
  id : String
  type : ActionType
  target : Option String := none
  value : Option MVal := none
  metadata : List (String × MVal) := []
deriving DecidableEq, Repr

/-! ## SecurityGuardian (`operate/security/guardian.py`) -/

/-- Rule types, from `guardian.py` (`RuleType`). -/
inductive RuleType where
  | blacklist
  | whitelist
  | pattern
  | permission
deriving DecidableEq, Repr

/-- Security levels, from `guardian.py` (`SecurityLevel`). -/
inductive SecurityLevel where
  | low
  | medium
  | high
  | critical
deriving DecidableEq, Repr

/-- A value of a rule's `conditions` map: a numeric bound (`max_size`) or a
string list (`allowed_domains`). -/
inductive CondV where
  | num (n : Nat)
  | strList (l : List String)
deriving DecidableEq, Repr

/-- A security rule, from `guardian.py` (`SecurityRule`). -/
structure SecurityRule where
  id : String
  type : RuleType
  level : SecurityLevel
  pattern : Option String := none
  actions : List ActionType := []
  targets : List String := []
  conditions : List (String × CondV) := []
  message : String := ""
deriving DecidableEq, Repr

/-- The action summary recorded in an audit entry
(`SecurityGuardian._audit_log`): id, type, and `str(target)` or `None` if the
target is falsy. -/
structure ActionSummary where
  id : String
  type : ActionType
  target : Option String
deriving DecidableEq, Repr

/-- One in-memory audit log entry (`SecurityGuardian._audit_log`). -/
structure AuditEntry where
  timestamp : Nat
  event : String
  session_id : String
  sandbox_mode : Bool
  action : Option ActionSummary := none
  details : List (String × String) := []
deriving DecidableEq, Repr

/-- Security context, from `guardian.py` (`SecurityContext`). -/
structure SecurityContext where
  sandbox_mode : Bool
  user_permissions : List String := []
  session_id : String := ""
  audit_log : List AuditEntry := []
deriving DecidableEq, Repr

/-- State of a `SecurityGuardian` instance: its configuration's
`require_confirmation` list, the registered rules, the security context, the
confirmation cache (`key ↦ (decision, cached-at)`), and the audit batches
flushed to durable storage by `_persist_audit_log`. -/
structure SecurityGuardian where
  require_confirmation : List String
  rules : List SecurityRule
  context : SecurityContext
  confirmation_cache : List (String × Bool × Nat) := []
  persisted_logs : List (List AuditEntry) := []
deriving DecidableEq, Repr

/-- The action summary dict built by `SecurityGuardian._audit_log`. -/
def actionSummary (a : Action) : ActionSummary :=
  { id := a.id
    type := a.type
    target := match a.target with
      | some t => if t == "" then none else some t
      | none => none }

/-- `SecurityGuardian._audit_log`: build the entry, append it, and flush and
clear the in-memory log once it reaches 100 entries. Returns the guardian and
the entry appended. -/
def auditLogStep (g : SecurityGuardian) (now : Nat) (act : Option Action)
    (event : String) (details : List (String × String)) :
    SecurityGuardian × AuditEntry :=
  let entry : AuditEntry :=
    { timestamp := now
      event := event
      session_id := g.context.session_id
      sandbox_mode := g.context.sandbox_mode
      action := act.map actionSummary
      details := details }
  let log := g.context.audit_log ++ [entry]
  let flushed : List AuditEntry × List (List AuditEntry) :=
    if 100 ≤ log.length then ([], g.persisted_logs ++ [log])
    else (log, g.persisted_logs)
  ({ g with context := { g.context with audit_log := flushed.1 }
            persisted_logs := flushed.2 }, entry)

/-- `SecurityGuardian._check_permission`: numeric and domain conditions of a
permission rule. -/
def checkPermission (a : Action) (rule : SecurityRule) : Bool :=
  let sizeOk :=
    match pyGet rule.conditions "max_size", pyGet a.metadata "size" with
    | some (.num limit), some m =>
      if m.truthy then
        match m with
        | .num n => !(limit < n)
        | _ => true
      else true
    | _, _ => true
  let domainOk :=
    match pyGet rule.conditions "allowed_domains", pyGet a.metadata "domain" with
    | some (.strList dl), some m =>
      if m.truthy then
        match m with
        | .str s => dl.contains s
        | _ => false
      else true
    | _, _ => true
  sizeOk && domainOk

/-- `SecurityGuardian._check_rule`: returns the violation detail if the rule
rejects the action, else `none`. The regex engine `re` stands for
`re.search(pattern, text, re.IGNORECASE)`. -/
def checkRule (re : String → String → Bool) (a : Action) (rule : SecurityRule) :
    Option String :=
  if !rule.actions.isEmpty && !rule.actions.contains a.type then none
  else
    match rule.type with
    | .blacklist =>
      match rule.pattern, a.value with
      | some p, some v =>
        if !(p == "") && v.truthy && re p v.toPyStr then
          some "Blacklisted pattern matched"
        else none
      | _, _ => none
    | .pattern =>
      match rule.pattern with
      | some p =>
        if !(p == "") then
          let base := match a.value with
            | some v => if v.truthy then [v.toPyStr] else []
            | none => []
          let toCheck := base ++ a.metadata.map (fun kv => kv.2.toPyStr)
          if toCheck.any (fun t => re p t) then
            some ("Sensitive pattern detected: " ++ p)
          else none
        else none
      | none => none
    | .permission =>
      if !(checkPermission a rule) then some "Permission check failed" else none
    | .whitelist => none

/-- First registered rule that rejects the action, with its violation detail
(the rule loop of `validate_action`). -/
def findViolation (re : String → String → Bool) (rules : List SecurityRule)
    (a : Action) : Option (SecurityRule × String) :=
  match rules with
  | [] => none
  | r :: rest =>
    match checkRule re a r with
    | some viol => some (r, viol)
    | none => findViolation re rest a

/-- `SecurityGuardian._categorize_action`. -/
def categorizeAction (a : Action) : String :=
  if a.type == .execute then "system_commands"
  else if a.type == .type && pyGet a.metadata "file_operation" == some (.str "delete") then
    "file_deletion"
  else if a.type == .github && truthyOpt (pyGet a.metadata "network_request") then
    "network_requests"
  else "general"

/-- `SecurityGuardian._requires_confirmation`. -/
def requiresConfirmation (g : SecurityGuardian) (a : Action) : Bool :=
  g.require_confirmation.contains (categorizeAction a)

/-- Python `str()` of an optional string (`None` prints as "None"). -/
def pyOptStr : Option String → String
  | none => "None"
  | some s => s

/-- Python `str()` of an optional `MVal`. -/
def pyOptValStr : Option MVal → String
  | none => "None"
  | some v => v.toPyStr

/-- The confirmation cache key f-string of `request_permission`. -/
def mkCacheKey (a : Action) : String :=
  a.type.pyStr ++ ":" ++ pyOptStr a.target ++ ":" ++ pyOptValStr a.value

/-- The uncached path of `SecurityGuardian.request_permission`: the simulated
user response is `not sandbox_mode`, and the decision is cached under the
action's cache key with the current time. -/
def requestPermissionFresh (g : SecurityGuardian) (now : Nat) (a : Action) :
    Bool × SecurityGuardian :=
  (!g.context.sandbox_mode,
    { g with confirmation_cache :=
        dictSet g.confirmation_cache (mkCacheKey a) (!g.context.sandbox_mode, now) })

/-- `SecurityGuardian.request_permission`: reuse a cached decision younger
than 5 minutes, else decide by `not sandbox_mode` and cache the decision. -/
def requestPermission (g : SecurityGuardian) (now : Nat) (a : Action) :
    Bool × SecurityGuardian :=
  match pyGet g.confirmation_cache (mkCacheKey a) with
  | some (cached, t) =>
    if now - t < 300 then (cached, g) else requestPermissionFresh g now a
  | none => requestPermissionFresh g now a

/-- `SecurityGuardian.validate_action`. Returns the `(allowed, reason)` pair,
the updated guardian, and the audit entries appended during this call (in
order). -/
def validateAction (re : String → String → Bool) (g : SecurityGuardian)
    (now : Nat) (a : Action) :
    (Bool × Option String) × SecurityGuardian × List AuditEntry :=
  let s1 := auditLogStep g now (some a) "validation_started" []
  let g1 := s1.1
  if g1.context.sandbox_mode && (a.type == .execute || a.type == .github) then
    ((false, some "Action not allowed in sandbox mode"), g1, [s1.2])
  else
    match findViolation re g1.rules a with
    | some rv =>
      let s2 := auditLogStep g1 now (some a) "validation_failed" [("rule", rv.1.id)]
      ((false, some (rv.1.message ++ ": " ++ rv.2)), s2.1, [s1.2, s2.2])
    | none =>
      if requiresConfirmation g1 a then
        let p := requestPermission g1 now a
        if !p.1 then
          let s3 := auditLogStep p.2 now (some a) "user_denied" []
          ((false, some "User denied permission"), s3.1, [s1.2, s3.2])
        else
          let s3 := auditLogStep p.2 now (some a) "validation_passed" []
          ((true, none), s3.1, [s1.2, s3.2])
      else
        let s2 := auditLogStep g1 now (some a) "validation_passed" []
        ((true, none), s2.1, [s1.2, s2.2])

/-! ### Guardian lemmas -/

theorem auditLogStep_context (g : SecurityGuardian) (now : Nat)
    (act : Option Action) (ev : String) (d : List (String × String)) :
    ((auditLogStep g now act ev d).1).context.sandbox_mode = g.context.sandbox_mode
    ∧ ((auditLogStep g now act ev d).1).context.session_id = g.context.session_id
    ∧ ((auditLogStep g now act ev d).1).rules = g.rules
    ∧ ((auditLogStep g now act ev d).1).require_confirmation = g.require_confirmation
    ∧ ((auditLogStep g now act ev d).1).confirmation_cache = g.confirmation_cache :=
  ⟨rfl, rfl, rfl, rfl, rfl⟩

theorem auditLogStep_entry (g : SecurityGuardian) (now : Nat)
    (act : Option Action) (ev : String) (d : List (String × String)) :
    (auditLogStep g now act ev d).2 =
      { timestamp := now
        event := ev
        session_id := g.context.session_id
        sandbox_mode := g.context.sandbox_mode
        action := act.map actionSummary
        details := d } := rfl

theorem auditLogStep_len (g : SecurityGuardian) (now : Nat)
    (act : Option Action) (ev : String) (d : List (String × String)) :
    ((auditLogStep g now act ev d).1).context.audit_log.length < 100 := by
  show (if 100 ≤ (g.context.audit_log ++ [(auditLogStep g now act ev d).2]).length
      then (([] : List AuditEntry), g.persisted_logs ++ [g.context.audit_log ++ [(auditLogStep g now act ev d).2]])
      else (g.context.audit_log ++ [(auditLogStep g now act ev d).2], g.persisted_logs)).1.length < 100
  split
  case isTrue h => simp
  case isFalse h =>
    simp only [List.length_append, List.length_cons, List.length_nil] at h ⊢
    omega

theorem auditLogStep_flush (g : SecurityGuardian) (now : Nat)
    (act : Option Action) (ev : String) (d : List (String × String)) :
    (100 ≤ g.context.audit_log.length + 1 →
      ((auditLogStep g now act ev d).1).context.audit_log = []
      ∧ ((auditLogStep g now act ev d).1).persisted_logs =
          g.persisted_logs ++ [g.context.audit_log ++ [(auditLogStep g now act ev d).2]])
    ∧ (g.context.audit_log.length + 1 < 100 →
      ((auditLogStep g now act ev d).1).context.audit_log =
        g.context.audit_log ++ [(auditLogStep g now act ev d).2]
      ∧ ((auditLogStep g now act ev d).1).persisted_logs = g.persisted_logs) := by
  constructor <;> intro h <;> unfold auditLogStep <;> simp only <;>
      simp only [List.length_append, List.length_cons, List.length_nil]
  · rw [if_pos (by omega)]
    exact ⟨rfl, rfl⟩
  · rw [if_neg (by omega)]
    exact ⟨rfl, rfl⟩

theorem requestPermission_context (g : SecurityGuardian) (now : Nat) (a : Action) :
    ((requestPermission g now a).2).context = g.context
    ∧ ((requestPermission g now a).2).rules = g.rules := by
  unfold requestPermission
  cases h : pyGet g.confirmation_cache (mkCacheKey a) with
  | none => exact ⟨rfl, rfl⟩
  | some p =>
    obtain ⟨cached, t⟩ := p
    simp only
    split
    · exact ⟨rfl, rfl⟩
    · exact ⟨rfl, rfl⟩

theorem validateAction_sandbox_case (re : String → String → Bool)
    (g : SecurityGuardian) (now : Nat) (a : Action)
    (hsb : g.context.sandbox_mode = true)
    (hty : a.type = ActionType.execute ∨ a.type = ActionType.github) :
    validateAction re g now a =
      ((false, some "Action not allowed in sandbox mode"),
        (auditLogStep g now (some a) "validation_started" []).1,
        [(auditLogStep g now (some a) "validation_started" []).2]) := by
  have hc : (((auditLogStep g now (some a) "validation_started" []).1).context.sandbox_mode
      && (a.type == ActionType.execute || a.type == ActionType.github)) = true := by
    have h1 : ((auditLogStep g now (some a) "validation_started" []).1).context.sandbox_mode
        = g.context.sandbox_mode := rfl
    rw [h1, hsb]
    rcases hty with h | h <;> rw [h] <;> rfl
  unfold validateAction
  simp only [hc, if_true]

/-- C5: if `sandbox_mode` is on and the action's type is in the privileged set
(system execution `EXECUTE` or external-repository write `GITHUB`),
`validate_action` returns `(false, "Action not allowed in sandbox mode")`, and
the result is the same for every registered rule set: the sandbox check
precedes the rule loop. -/
theorem sandbox_rejects_privileged (re : String → String → Bool)
    (g : SecurityGuardian) (now : Nat) (a : Action)
    (hsb : g.context.sandbox_mode = true)
    (hty : a.type = ActionType.execute ∨ a.type = ActionType.github) :
    (validateAction re g now a).1 = (false, some "Action not allowed in sandbox mode")
    ∧ ∀ rules2 : List SecurityRule,
      (validateAction re { g with rules := rules2 } now a).1
        = (false, some "Action not allowed in sandbox mode") := by
  constructor
  · rw [validateAction_sandbox_case re g now a hsb hty]
  · intro rules2
    rw [validateAction_sandbox_case re { g with rules := rules2 } now a hsb hty]

/-- Concrete guardian used in witnesses: sandbox mode on, one registered
blacklist rule. -/
def c5Guardian : SecurityGuardian :=
  { require_confirmation := ["system_commands", "file_deletion", "network_requests"]
    rules := [{ id := "sys_cmd_blacklist", type := .blacklist, level := .critical
                pattern := some "rm -rf /", actions := [.execute]
                message := "Dangerous system command detected" }]
    context := { sandbox_mode := true } }

/-- Concrete privileged action used in witnesses. -/
def c5Action : Action := { id := "x", type := .github }

/-- Witness for `sandbox_rejects_privileged` at a concrete guardian and
action. -/
theorem sandbox_rejects_privileged_witness :
    (validateAction (fun _ _ => true) c5Guardian 7 c5Action).1
      = (false, some "Action not allowed in sandbox mode") :=
  (sandbox_rejects_privileged (fun _ _ => true) c5Guardian 7 c5Action rfl
    (Or.inr rfl)).1

/-- Guardian for the C8 counterexample: sandbox on, no rules. -/
def c8Guardian : SecurityGuardian :=
  { require_confirmation := ["system_commands", "file_deletion", "network_requests"]
    rules := []
    context := { sandbox_mode := true } }

/-- Privileged action for the C8 counterexample. -/
def c8Action : Action := { id := "a1", type := .execute }

/-- C8 counterexample: a sandbox-mode rejection appends only the
`validation_started` entry made at call entry — no audit entry records the
rejection outcome itself, contrary to the claim that every validation
outcome, including sandbox-mode rejections, appends an entry for the event. -/
theorem audit_sandbox_reject_missing_outcome :
    ((validateAction (fun _ _ => false) c8Guardian 0 c8Action).1).1 = false
    ∧ ((validateAction (fun _ _ => false) c8Guardian 0 c8Action).2.2.map
        (fun e => e.event)) = ["validation_started"] :=
  ⟨rfl, rfl⟩

/-- C8 (amended): every `validate_action` call appends a
`validation_started` entry recording the timestamp, an action summary and the
sandbox flag; rule rejections, user denials and passes append a second entry
carrying the outcome event, while sandbox-mode rejections append no outcome
entry; and the in-memory audit log stays below 100 entries after every
validation (`_audit_log` flushes and clears it exactly when it reaches 100,
see `auditLogStep_flush`). -/
theorem audit_log_behavior (re : String → String → Bool) (g : SecurityGuardian)
    (now : Nat) (a : Action) :
    (((validateAction re g now a).2.2.map (fun e => e.event)).head?
        = some "validation_started")
    ∧ (∀ e ∈ (validateAction re g now a).2.2,
        e.timestamp = now ∧ e.sandbox_mode = g.context.sandbox_mode
          ∧ e.action = some (actionSummary a) ∧ e.session_id = g.context.session_id)
    ∧ (((validateAction re g now a).1).1 = true →
        (validateAction re g now a).2.2.map (fun e => e.event)
          = ["validation_started", "validation_passed"])
    ∧ (g.context.sandbox_mode = true →
        (a.type = ActionType.execute ∨ a.type = ActionType.github) →
        (validateAction re g now a).2.2.map (fun e => e.event)
          = ["validation_started"])
    ∧ (¬(g.context.sandbox_mode = true
          ∧ (a.type = ActionType.execute ∨ a.type = ActionType.github)) →
        ((validateAction re g now a).1).1 = false →
        (validateAction re g now a).2.2.map (fun e => e.event)
            = ["validation_started", "validation_failed"]
          ∨ (validateAction re g now a).2.2.map (fun e => e.event)
            = ["validation_started", "user_denied"])
    ∧ ((validateAction re g now a).2.1.context.audit_log.length < 100) := by
  unfold validateAction
  simp only
  split
  case isTrue hcond =>
    have hprops : g.context.sandbox_mode = true
        ∧ (a.type = ActionType.execute ∨ a.type = ActionType.github) := by
      have h1 : ((auditLogStep g now (some a) "validation_started" []).1).context.sandbox_mode
          = g.context.sandbox_mode := rfl
      rw [h1] at hcond
      simp only [Bool.and_eq_true, Bool.or_eq_true, beq_iff_eq] at hcond
      exact hcond
    refine ⟨rfl, ?_, ?_, ?_, ?_, auditLogStep_len g now (some a) "validation_started" []⟩
    · intro e he
      simp only [auditLogStep_entry, List.mem_singleton] at he
      subst he
      exact ⟨rfl, rfl, rfl, rfl⟩
    · intro h
      simp at h
    · intro _ _
      simp [auditLogStep_entry]
    · intro hn
      exact absurd hprops hn
  case isFalse hcond =>
    have hnp : ¬(g.context.sandbox_mode = true
        ∧ (a.type = ActionType.execute ∨ a.type = ActionType.github)) := by
      intro hp
      apply hcond
      have h1 : ((auditLogStep g now (some a) "validation_started" []).1).context.sandbox_mode
          = g.context.sandbox_mode := rfl
      rw [h1, hp.1]
      rcases hp.2 with h | h <;> rw [h] <;> rfl
    split
    case h_1 rv heq =>
      refine ⟨?_, ?_, ?_, ?_, ?_, auditLogStep_len _ now (some a) "validation_failed" _⟩
      · simp [auditLogStep_entry]
      · intro e he
        simp only [auditLogStep_entry, List.mem_cons, List.mem_singleton,
          List.not_mem_nil, or_false] at he
        rcases he with he | he <;> subst he
        · exact ⟨rfl, rfl, rfl, rfl⟩
        · exact ⟨rfl, rfl, rfl, rfl⟩
      · intro h
        simp at h
      · intro hsb hty
        exact absurd ⟨hsb, hty⟩ hnp
      · intro _ _
        left
        simp [auditLogStep_entry]
    case h_2 heq =>
      split
      case isTrue hreq =>
        have hctx : ((requestPermission (auditLogStep g now (some a) "validation_started" []).1 now a).2).context
            = ((auditLogStep g now (some a) "validation_started" []).1).context :=
          (requestPermission_context _ now a).1
        split
        case isTrue hdeny =>
          refine ⟨?_, ?_, ?_, ?_, ?_, auditLogStep_len _ now (some a) "user_denied" _⟩
          · simp [auditLogStep_entry]
          · intro e he
            simp only [auditLogStep_entry, List.mem_cons, List.mem_singleton,
              List.not_mem_nil, or_false] at he
            rcases he with he | he <;> subst he
            · exact ⟨rfl, rfl, rfl, rfl⟩
            · refine ⟨rfl, ?_, rfl, ?_⟩
              · rw [hctx]
                rfl
              · rw [hctx]
                rfl
          · intro h
            simp at h
          · intro hsb hty
            exact absurd ⟨hsb, hty⟩ hnp
          · intro _ _
            right
            simp [auditLogStep_entry]
        case isFalse hallow =>
          refine ⟨?_, ?_, ?_, ?_, ?_, auditLogStep_len _ now (some a) "validation_passed" _⟩
          · simp [auditLogStep_entry]
          · intro e he
            simp only [auditLogStep_entry, List.mem_cons, List.mem_singleton,
              List.not_mem_nil, or_false] at he
            rcases he with he | he <;> subst he
            · exact ⟨rfl, rfl, rfl, rfl⟩
            · refine ⟨rfl, ?_, rfl, ?_⟩
              · rw [hctx]
                rfl
              · rw [hctx]
                rfl
          · intro _
            simp [auditLogStep_entry]
          · intro hsb hty
            exact absurd ⟨hsb, hty⟩ hnp
          · intro _ h
            simp at h
      case isFalse hreq =>
        refine ⟨?_, ?_, ?_, ?_, ?_, auditLogStep_len _ now (some a) "validation_passed" _⟩
        · simp [auditLogStep_entry]
        · intro e he
          simp only [auditLogStep_entry, List.mem_cons, List.mem_singleton,
            List.not_mem_nil, or_false] at he
          rcases he with he | he <;> subst he
          · exact ⟨rfl, rfl, rfl, rfl⟩
          · exact ⟨rfl, rfl, rfl, rfl⟩
        · intro _
          simp [auditLogStep_entry]
        · intro hsb hty
          exact absurd ⟨hsb, hty⟩ hnp
        · intro _ h
          simp at h

/-- Non-sandbox guardian used in the `audit_log_behavior` witness. -/
def c8bGuardian : SecurityGuardian :=
  { require_confirmation := ["system_commands", "file_deletion", "network_requests"]
    rules := []
    context := { sandbox_mode := false } }

/-- Action of an unprivileged category for the `audit_log_behavior` witness. -/
def c8bAction : Action := { id := "a2", type := .click }

/-- Witness for `audit_log_behavior`: at a concrete passing validation the
logged events are exactly started-then-passed, and the log stays short. -/
theorem audit_log_behavior_witness :
    ((validateAction (fun _ _ => false) c8bGuardian 3 c8bAction).2.2.map
        (fun e => e.event)) = ["validation_started", "validation_passed"]
    ∧ ((validateAction (fun _ _ => false) c8bGuardian 3 c8bAction).2.1.context.audit_log.length
        < 100) :=
  ⟨(audit_log_behavior (fun _ _ => false) c8bGuardian 3 c8bAction).2.2.1 rfl,
    (audit_log_behavior (fun _ _ => false) c8bGuardian 3 c8bAction).2.2.2.2.2⟩

/-! ## LRUCache (`operate/core/performance.py`) -/

/-- A cached Python value, carrying exactly what `_estimate_size` inspects:
byte strings (their length), strings, lists/dicts (the length of their `str()`
form), and anything else. -/
inductive PyVal where
  | bytes (len : Nat)
  | str (s : String)
  | coll (reprLen : Nat)
  | other
deriving DecidableEq, Repr

/-- `LRUCache._estimate_size`. -/
def estimateSize : PyVal → Nat
  | .bytes n => n
  | .str s => s.utf8ByteSize
  | .coll n => n
  | .other => 64

/-- A cache entry (`CacheEntry` in `performance.py`). -/
structure CacheEntry where
  key : String
  value : PyVal
  timestamp : Nat
  hit_count : Nat := 0
  size_bytes : Nat := 0
  ttl : Option Nat := none
deriving DecidableEq, Repr

/-- `CacheEntry.is_expired`: a falsy (absent or zero) TTL never expires. -/
def CacheEntry.isExpired (now : Nat) (e : CacheEntry) : Bool :=
  match e.ttl with
  | none => false
  | some t => if t == 0 then false else decide (e.timestamp + t < now)

/-- The LRU cache state: the ordered entry list (front = least recently used,
back = most recently used, mirroring the `OrderedDict`) plus the running byte
total `_total_size` (a Python int, hence `Int`). -/
structure LRUCache where
  max_size : Nat
  max_memory_bytes : Int
  cache : List CacheEntry := []
  total_size : Int := 0
deriving DecidableEq, Repr

/-- `LRUCache.__init__`: the byte budget is `max_memory_mb * 1024 * 1024`. -/
def emptyCache (maxSize : Nat) (maxMemoryMb : Nat) : LRUCache :=
  { max_size := maxSize, max_memory_bytes := (maxMemoryMb : Int) * 1024 * 1024 }

/-- `LRUCache.get`: a hit moves the entry to the most-recently-used end and
bumps `hit_count`; an expired entry is deleted and counts as a miss. -/
def cacheGet (c : LRUCache) (now : Nat) (k : String) : Option PyVal × LRUCache :=
  match c.cache.find? (fun e => e.key == k) with
  | none => (none, c)
  | some e =>
    if e.isExpired now then
      (none, { c with cache := c.cache.filter (fun x => !(x.key == k))
                      total_size := c.total_size - (e.size_bytes : Int) })
    else
      (some e.value,
        { c with cache := c.cache.filter (fun x => !(x.key == k))
                    ++ [{ e with hit_count := e.hit_count + 1 }] })

/-- The entry built by `LRUCache.set`. -/
def mkCacheEntry (now : Nat) (k : String) (v : PyVal) (ttl : Option Nat) :
    CacheEntry :=
  { key := k, value := v, timestamp := now, size_bytes := estimateSize v
    ttl := ttl }

/-- `LRUCache._evict_if_needed`: pop least-recently-used entries from the
front while the entry count or the byte total is over budget (stopping if the
cache empties). Returns the surviving entries, the new total, and the evicted
keys in eviction order. -/
def evictGo (maxSize : Nat) (maxMem : Int) :
    List CacheEntry → Int → List CacheEntry × Int × List String
  | [], total => ([], total, [])
  | e :: rest, total =>
    if maxSize < (e :: rest).length || maxMem < total then
      let r := evictGo maxSize maxMem rest (total - (e.size_bytes : Int))
      (r.1, r.2.1, e.key :: r.2.2)
    else (e :: rest, total, [])

/-- `LRUCache.set`: subtract a replaced entry's size, write the new entry at
the most-recently-used end, add its size, then evict as needed. Returns the
new cache and the evicted keys. -/
def cacheSet (c : LRUCache) (now : Nat) (k : String) (v : PyVal)
    (ttl : Option Nat) : LRUCache × List String :=
  let t1 : Int := match c.cache.find? (fun e => e.key == k) with
    | some old => c.total_size - (old.size_bytes : Int)
    | none => c.total_size
  let cache1 := c.cache.filter (fun e => !(e.key == k)) ++ [mkCacheEntry now k v ttl]
  let t2 := t1 + (estimateSize v : Int)
  let r := evictGo c.max_size c.max_memory_bytes cache1 t2
  ({ c with cache := r.1, total_size := r.2.1 }, r.2.2)

/-- `LRUCache.clear`. -/
def cacheClear (c : LRUCache) : LRUCache :=
  { c with cache := [], total_size := 0 }

/-- Byte total of a list of entries. -/
def sumZ (l : List CacheEntry) : Int :=
  (l.map (fun e => (e.size_bytes : Int))).sum

/-- Well-formedness of a reachable cache state: distinct keys, accurate byte
accounting, and both configured bounds respected (with a non-negative byte
budget, as produced by `emptyCache`). -/
def CacheWf (c : LRUCache) : Prop :=
  (c.cache.map (fun e => e.key)).Nodup
  ∧ c.total_size = sumZ c.cache
  ∧ c.cache.length ≤ c.max_size
  ∧ c.total_size ≤ c.max_memory_bytes
  ∧ 0 ≤ c.max_memory_bytes

instance (c : LRUCache) : Decidable (CacheWf c) := by
  unfold CacheWf
  infer_instance

/-- `setManyTrace c now items` runs `cacheSet` left to right and records each
call's evicted keys. -/
def setManyTrace (c : LRUCache) (now : Nat) :
    List (String × PyVal) → LRUCache × List (List String)
  | [] => (c, [])
  | (k, v) :: rest =>
    let s := cacheSet c now k v none
    let r := setManyTrace s.1 now rest
    (r.1, s.2 :: r.2)

/-- Byte total of a list of pending inserts. -/
def sumSizes (items : List (String × PyVal)) : Int :=
  (items.map (fun p => (estimateSize p.2 : Int))).sum

/-! ### LRU cache lemmas -/

theorem sumZ_cons (e : CacheEntry) (l : List CacheEntry) :
    sumZ (e :: l) = (e.size_bytes : Int) + sumZ l := by
  simp [sumZ]

theorem sumZ_append (l₁ l₂ : List CacheEntry) :
    sumZ (l₁ ++ l₂) = sumZ l₁ + sumZ l₂ := by
  simp [sumZ]

theorem sumZ_nonneg (l : List CacheEntry) : 0 ≤ sumZ l := by
  induction l with
  | nil => simp [sumZ]
  | cons e t ih =>
    rw [sumZ_cons]
    have : (0 : Int) ≤ (e.size_bytes : Int) := Int.ofNat_nonneg _
    omega

theorem evictGo_noop (maxSize : Nat) (maxMem : Int) (cache : List CacheEntry)
    (total : Int) (hlen : cache.length ≤ maxSize) (htot : total ≤ maxMem) :
    evictGo maxSize maxMem cache total = (cache, total, []) := by
  cases cache with
  | nil => rfl
  | cons e rest =>
    unfold evictGo
    rw [if_neg]
    simp only [Bool.or_eq_true, decide_eq_true_eq, not_or, not_lt]
    exact ⟨hlen, htot⟩

theorem evictGo_spec (maxSize : Nat) (maxMem : Int) (cache : List CacheEntry) :
    ∀ (total : Int), total = sumZ cache →
      ((evictGo maxSize maxMem cache total).1 <:+ cache)
      ∧ (evictGo maxSize maxMem cache total).2.1
          = sumZ (evictGo maxSize maxMem cache total).1
      ∧ ((evictGo maxSize maxMem cache total).1.length ≤ maxSize
          ∧ (evictGo maxSize maxMem cache total).2.1 ≤ maxMem
        ∨ (evictGo maxSize maxMem cache total).1 = []) := by
  induction cache with
  | nil =>
    intro total h
    refine ⟨List.suffix_refl _, h, Or.inr rfl⟩
  | cons e rest ih =>
    intro total h
    unfold evictGo
    by_cases hc : (decide (maxSize < (e :: rest).length)
        || decide (maxMem < total)) = true
    · rw [if_pos hc]
      have h' : total - (e.size_bytes : Int) = sumZ rest := by
        rw [sumZ_cons] at h
        omega
      obtain ⟨s1, s2, s3⟩ := ih (total - (e.size_bytes : Int)) h'
      exact ⟨s1.trans (List.suffix_cons e rest), s2, s3⟩
    · rw [if_neg hc]
      simp only [Bool.or_eq_true, decide_eq_true_eq, not_or, not_lt] at hc
      exact ⟨List.suffix_refl _, h, Or.inl ⟨hc.1, hc.2⟩⟩

theorem evictGo_wf (maxSize : Nat) (maxMem : Int) (cache : List CacheEntry)
    (total : Int) (hsum : total = sumZ cache)
    (hnd : (cache.map (fun e => e.key)).Nodup) (hmm : 0 ≤ maxMem) :
    ((evictGo maxSize maxMem cache total).1.map (fun e => e.key)).Nodup
    ∧ (evictGo maxSize maxMem cache total).2.1
        = sumZ (evictGo maxSize maxMem cache total).1
    ∧ (evictGo maxSize maxMem cache total).1.length ≤ maxSize
    ∧ (evictGo maxSize maxMem cache total).2.1 ≤ maxMem := by
  obtain ⟨s1, s2, s3⟩ := evictGo_spec maxSize maxMem cache total hsum
  refine ⟨(s1.sublist.map _).nodup hnd, s2, ?_⟩
  rcases s3 with ⟨h1, h2⟩ | h
  · exact ⟨h1, h2⟩
  · rw [h] at s2 ⊢
    rw [s2]
    simp [sumZ]
    exact hmm

theorem filter_key_all (l : List CacheEntry) (k : String)
    (h : ∀ x ∈ l, x.key ≠ k) :
    l.filter (fun x => !(x.key == k)) = l := by
  induction l with
  | nil => rfl
  | cons e t ih =>
    rw [List.filter_cons, if_pos]
    · rw [ih (fun x hx => h x (List.mem_cons_of_mem e hx))]
    · simp [h e (List.mem_cons_self e t)]

theorem filter_key_sum_len (l : List CacheEntry) (k : String)
    (hn : (l.map (fun e => e.key)).Nodup) (e : CacheEntry) (he : e ∈ l)
    (hk : e.key = k) :
    sumZ (l.filter (fun x => !(x.key == k))) = sumZ l - (e.size_bytes : Int)
    ∧ (l.filter (fun x => !(x.key == k))).length + 1 = l.length := by
  induction l with
  | nil => cases he
  | cons h0 t ih =>
    rw [List.map_cons, List.nodup_cons] at hn
    rcases List.mem_cons.mp he with rfl | het
    · rw [List.filter_cons, if_neg (by simp [hk])]
      have hall : ∀ x ∈ t, x.key ≠ k := by
        intro x hx hxk
        have hmem : x.key ∈ t.map (fun e => e.key) :=
          List.mem_map_of_mem (fun e => e.key) hx
        rw [hxk, ← hk] at hmem
        exact hn.1 hmem
      rw [filter_key_all t k hall, sumZ_cons]
      constructor
      · omega
      · simp
    · have hne : ¬(h0.key = k) := by
        intro h0k
        exact hn.1 (by
          rw [h0k, ← hk]
          exact List.mem_map_of_mem (fun e => e.key) het)
      rw [List.filter_cons, if_pos (by simp [hne])]
      obtain ⟨s1, s2⟩ := ih hn.2 het
      rw [sumZ_cons, sumZ_cons, s1]
      constructor
      · omega
      · simp only [List.length_cons]
        omega

theorem nodup_filter_key (l : List CacheEntry) (p : CacheEntry → Bool)
    (hn : (l.map (fun e => e.key)).Nodup) :
    ((l.filter p).map (fun e => e.key)).Nodup :=
  ((List.filter_sublist l).map _).nodup hn

theorem nodup_filter_append (l : List CacheEntry) (k : String) (e' : CacheEntry)
    (hn : (l.map (fun e => e.key)).Nodup) (hk' : e'.key = k) :
    (((l.filter (fun x => !(x.key == k))) ++ [e']).map (fun e => e.key)).Nodup := by
  rw [List.map_append, List.nodup_append]
  refine ⟨nodup_filter_key l _ hn, by simp, ?_⟩
  intro a ha hb
  simp only [List.map_cons, List.map_nil, List.mem_singleton] at hb
  subst hb
  obtain ⟨x, hx, hxk⟩ := List.mem_map.mp ha
  have := (List.mem_filter.mp hx).2
  rw [hxk] at this
  simp [hk'] at this

theorem cacheGet_wf (c : LRUCache) (now : Nat) (k : String) (h : CacheWf c) :
    CacheWf (cacheGet c now k).2 := by
  obtain ⟨hnd, htot, hlen, hbud, hmm⟩ := h
  unfold cacheGet
  cases hf : c.cache.find? (fun e => e.key == k) with
  | none => exact ⟨hnd, htot, hlen, hbud, hmm⟩
  | some e =>
    have he : e ∈ c.cache := List.mem_of_find?_eq_some hf
    have hk : e.key = k := by
      have := List.find?_some hf
      simpa using this
    obtain ⟨hsum, hlen1⟩ := filter_key_sum_len c.cache k hnd e he hk
    simp only
    split
    · refine ⟨nodup_filter_key _ _ hnd, ?_, ?_, ?_, hmm⟩
      · rw [hsum, htot]
      · simp only [List.length_filter_le, List.length]
        omega
      · have hsz : (0 : Int) ≤ (e.size_bytes : Int) := Int.ofNat_nonneg _
        simp only
        omega
    · refine ⟨nodup_filter_append c.cache k _ hnd hk, ?_, ?_, hbud, hmm⟩
      · rw [htot, sumZ_append, hsum, sumZ_cons]
        simp [sumZ]
      · simp only [List.length_append, List.length_cons, List.length_nil]
        omega

theorem cacheSet_wf (c : LRUCache) (now : Nat) (k : String) (v : PyVal)
    (ttl : Option Nat) (h : CacheWf c) : CacheWf (cacheSet c now k v ttl).1 := by
  obtain ⟨hnd, htot, hlen, hbud, hmm⟩ := h
  unfold cacheSet
  simp only
  have hnd1 := nodup_filter_append c.cache k (mkCacheEntry now k v ttl) hnd rfl
  have hsum1 : (match c.cache.find? (fun e => e.key == k) with
      | some old => c.total_size - (old.size_bytes : Int)
      | none => c.total_size) + (estimateSize v : Int)
      = sumZ (c.cache.filter (fun e => !(e.key == k)) ++ [mkCacheEntry now k v ttl]) := by
    cases hf : c.cache.find? (fun e => e.key == k) with
    | none =>
      have hall : ∀ x ∈ c.cache, x.key ≠ k := by
        intro x hx
        have := List.find?_eq_none.mp hf x hx
        simpa using this
      rw [filter_key_all c.cache k hall, sumZ_append, sumZ_cons, htot]
      simp [sumZ, mkCacheEntry]
    | some old =>
      have hold : old ∈ c.cache := List.mem_of_find?_eq_some hf
      have holdk : old.key = k := by
        have := List.find?_some hf
        simpa using this
      obtain ⟨hsum, _⟩ := filter_key_sum_len c.cache k hnd old hold holdk
      rw [sumZ_append, hsum, sumZ_cons, htot]
      simp [sumZ, mkCacheEntry]
  obtain ⟨w1, w2, w3, w4⟩ := evictGo_wf c.max_size c.max_memory_bytes
    (c.cache.filter (fun e => !(e.key == k)) ++ [mkCacheEntry now k v ttl])
    ((match c.cache.find? (fun e => e.key == k) with
      | some old => c.total_size - (old.size_bytes : Int)
      | none => c.total_size) + (estimateSize v : Int))
    hsum1 hnd1 hmm
  exact ⟨w1, w2, w3, w4, hmm⟩

theorem cacheClear_wf (c : LRUCache) (h : CacheWf c) : CacheWf (cacheClear c) := by
  obtain ⟨_, _, _, _, hmm⟩ := h
  refine ⟨by simp [cacheClear], by simp [cacheClear, sumZ], by simp [cacheClear], ?_, hmm⟩
  show (0 : Int) ≤ c.max_memory_bytes
  exact hmm

theorem cacheSet_fresh_no_evict (c : LRUCache) (now : Nat) (k : String)
    (v : PyVal) (ttl : Option Nat)
    (hfresh : ∀ x ∈ c.cache, x.key ≠ k)
    (hlen : c.cache.length + 1 ≤ c.max_size)
    (hbud : c.total_size + (estimateSize v : Int) ≤ c.max_memory_bytes) :
    cacheSet c now k v ttl =
      ({ c with cache := c.cache ++ [mkCacheEntry now k v ttl]
                total_size := c.total_size + (estimateSize v : Int) }, []) := by
  have hf : c.cache.find? (fun e => e.key == k) = none :=
    List.find?_eq_none.mpr (fun x hx => by simp [hfresh x hx])
  unfold cacheSet
  rw [hf, filter_key_all c.cache k hfresh]
  dsimp only
  rw [evictGo_noop c.max_size c.max_memory_bytes _ _ (by simp; omega) hbud]

theorem cacheSet_full_evicts_lru (c : LRUCache) (now : Nat) (k : String)
    (v : PyVal) (ttl : Option Nat)
    (hfresh : ∀ x ∈ c.cache, x.key ≠ k)
    (hlen : c.cache.length = c.max_size)
    (hbud : c.total_size + (estimateSize v : Int) ≤ c.max_memory_bytes) :
    (cacheSet c now k v ttl).2
      = [((c.cache ++ [mkCacheEntry now k v ttl]).headD (mkCacheEntry now k v ttl)).key]
    ∧ (cacheSet c now k v ttl).1.cache
      = (c.cache ++ [mkCacheEntry now k v ttl]).tail := by
  have hf : c.cache.find? (fun e => e.key == k) = none :=
    List.find?_eq_none.mpr (fun x hx => by simp [hfresh x hx])
  unfold cacheSet
  rw [hf, filter_key_all c.cache k hfresh]
  cases hc : c.cache with
  | nil =>
    rw [hc] at hlen
    simp only [List.nil_append]
    unfold evictGo
    rw [if_pos (by simp [← hlen])]
    unfold evictGo
    simp
  | cons e0 rest =>
    simp only [List.cons_append]
    unfold evictGo
    rw [if_pos (by
      simp only [Bool.or_eq_true, decide_eq_true_eq]
      left
      rw [← hlen, hc]
      simp)]
    rw [evictGo_noop c.max_size c.max_memory_bytes (rest ++ [mkCacheEntry now k v ttl]) _
      (by
        have : (e0 :: rest).length = c.max_size := by rw [← hc, hlen]
        simp at this ⊢
        omega)
      (by
        have hsz : (0 : Int) ≤ (e0.size_bytes : Int) := Int.ofNat_nonneg _
        omega)]
    simp

theorem setManyTrace_append (now : Nat) (xs ys : List (String × PyVal)) :
    ∀ c : LRUCache,
      setManyTrace c now (xs ++ ys) =
        ((setManyTrace (setManyTrace c now xs).1 now ys).1,
          (setManyTrace c now xs).2 ++ (setManyTrace (setManyTrace c now xs).1 now ys).2) := by
  induction xs with
  | nil => intro c; simp [setManyTrace]
  | cons p rest ih =>
    intro c
    obtain ⟨k, v⟩ := p
    simp only [List.cons_append, setManyTrace]
    rw [show rest.append ys = rest ++ ys from rfl, ih]

theorem sumSizes_cons (p : String × PyVal) (l : List (String × PyVal)) :
    sumSizes (p :: l) = (estimateSize p.2 : Int) + sumSizes l := by
  simp [sumSizes]

theorem sumSizes_nonneg (l : List (String × PyVal)) : 0 ≤ sumSizes l := by
  induction l with
  | nil => simp [sumSizes]
  | cons p t ih =>
    rw [sumSizes_cons]
    have : (0 : Int) ≤ (estimateSize p.2 : Int) := Int.ofNat_nonneg _
    omega

theorem sumZ_map_mk (now : Nat) (items : List (String × PyVal)) :
    sumZ (items.map (fun p => mkCacheEntry now p.1 p.2 none)) = sumSizes items := by
  induction items with
  | nil => simp [sumZ, sumSizes]
  | cons p t ih =>
    rw [List.map_cons, sumZ_cons, sumSizes_cons, ih]
    rfl

theorem setMany_no_evict (now : Nat) :
    ∀ (items : List (String × PyVal)) (c : LRUCache),
      (∀ p ∈ items, ∀ x ∈ c.cache, x.key ≠ p.1) →
      (items.map Prod.fst).Nodup →
      c.cache.length + items.length ≤ c.max_size →
      c.total_size + sumSizes items ≤ c.max_memory_bytes →
      setManyTrace c now items =
        ({ c with cache := c.cache ++ items.map (fun p => mkCacheEntry now p.1 p.2 none)
                  total_size := c.total_size + sumSizes items },
          List.replicate items.length [])
  | [], c, _, _, _, _ => by
    simp [setManyTrace, sumSizes]
  | (k, v) :: rest, c, hdisj, hnd, hlen, hbud => by
    have hrest_nonneg := sumSizes_nonneg rest
    have h1 := cacheSet_fresh_no_evict c now k v none
      (fun x hx => hdisj (k, v) (List.mem_cons_self _ _) x hx)
      (by simp at hlen; omega)
      (by rw [sumSizes_cons] at hbud; simp at hbud ⊢; omega)
    simp only [setManyTrace]
    rw [h1]
    simp only
    rw [List.map_cons, List.nodup_cons] at hnd
    have hk_notin : k ∉ List.map Prod.fst rest := by simpa using hnd.1
    have h2 := setMany_no_evict now rest
      { c with cache := c.cache ++ [mkCacheEntry now k v none]
               total_size := c.total_size + (estimateSize v : Int) }
      (by
        intro p hp x hx
        simp only [List.mem_append, List.mem_singleton] at hx
        rcases hx with hx | hx
        · exact hdisj p (List.mem_cons_of_mem _ hp) x hx
        · subst hx
          show k ≠ p.1
          intro hk
          apply hk_notin
          rw [hk]
          exact List.mem_map_of_mem Prod.fst hp)
      hnd.2
      (by simp at hlen ⊢; omega)
      (by rw [sumSizes_cons] at hbud; simp at hbud ⊢; omega)
    rw [h2]
    simp only [Prod.mk.injEq, LRUCache.mk.injEq, List.length_cons,
      List.replicate_succ, List.map_cons, List.append_assoc,
      List.singleton_append, sumSizes_cons, true_and, and_true]
    omega

theorem sumSizes_append (l₁ l₂ : List (String × PyVal)) :
    sumSizes (l₁ ++ l₂) = sumSizes l₁ + sumSizes l₂ := by
  simp [sumSizes]

theorem keys_map_mk (now : Nat) (items : List (String × PyVal)) :
    (items.map (fun p => mkCacheEntry now p.1 p.2 none)).map (fun e => e.key)
      = items.map Prod.fst := by
  induction items with
  | nil => rfl
  | cons p t ih => simp [mkCacheEntry, ih]

theorem lru_insert_scenario (now : Nat) (front : List (String × PyVal))
    (lk : String) (lv : PyVal) (mb : Nat)
    (hnd : ((front ++ [(lk, lv)]).map Prod.fst).Nodup)
    (hbud : sumSizes (front ++ [(lk, lv)]) ≤ (mb : Int) * 1024 * 1024) :
    (setManyTrace (emptyCache front.length mb) now (front ++ [(lk, lv)])).2
      = List.replicate front.length []
        ++ [[((front ++ [(lk, lv)]).map Prod.fst).headD ""]] := by
  have hsz : (0 : Int) ≤ (estimateSize lv : Int) := Int.ofNat_nonneg _
  have hsplit : sumSizes (front ++ [(lk, lv)])
      = sumSizes front + (estimateSize lv : Int) := by
    rw [sumSizes_append]
    simp [sumSizes]
  rw [List.map_append, List.nodup_append] at hnd
  obtain ⟨hnd1, _, hdisj⟩ := hnd
  rw [setManyTrace_append]
  have hfront := setMany_no_evict now front (emptyCache front.length mb)
    (by intro p hp x hx; simp [emptyCache] at hx)
    hnd1
    (by simp [emptyCache])
    (by
      simp only [emptyCache]
      rw [hsplit] at hbud
      omega)
  rw [hfront]
  simp only [setManyTrace]
  have hfull := cacheSet_full_evicts_lru
    { emptyCache front.length mb with
        cache := (emptyCache front.length mb).cache
          ++ front.map (fun p => mkCacheEntry now p.1 p.2 none)
        total_size := (emptyCache front.length mb).total_size + sumSizes front }
    now lk lv none
    (by
      intro x hx
      simp only [emptyCache, List.nil_append] at hx
      obtain ⟨p, hp, hpe⟩ := List.mem_map.mp hx
      rw [← hpe]
      show p.1 ≠ lk
      intro hk
      exact hdisj (hk ▸ List.mem_map_of_mem Prod.fst hp) (by simp))
    (by simp [emptyCache])
    (by
      simp only [emptyCache]
      rw [hsplit] at hbud
      omega)
  rw [hfull.1]
  simp only [emptyCache, List.nil_append]
  cases front with
  | nil => simp [mkCacheEntry]
  | cons p ps => simp [mkCacheEntry]

/-- C6: the LRU cache keeps its bounds and evicts least-recently-used first:
(1)–(3) every `get`, `set` and `clear` preserves well-formedness — in
particular the entry count never exceeds `max_size` and the accounted byte
total never exceeds `max_memory_bytes`; (4) a `set` of a fresh key into a
full cache (whose added bytes fit the budget) evicts exactly one entry, the
least-recently-used front entry; (5) inserting N+1 distinct keys into an
empty cache with `max_size = N` (total bytes within budget) evicts nothing
during the first N inserts and exactly the least-recently-used first key on
the last. -/
theorem lru_bounds_and_lru_eviction :
    (∀ (c : LRUCache) (now : Nat) (k : String), CacheWf c → CacheWf (cacheGet c now k).2)
    ∧ (∀ (c : LRUCache) (now : Nat) (k : String) (v : PyVal) (ttl : Option Nat),
        CacheWf c → CacheWf (cacheSet c now k v ttl).1)
    ∧ (∀ c : LRUCache, CacheWf c → CacheWf (cacheClear c))
    ∧ (∀ (c : LRUCache) (now : Nat) (k : String) (v : PyVal) (ttl : Option Nat),
        1 ≤ c.max_size → c.cache.length = c.max_size →
        (∀ x ∈ c.cache, x.key ≠ k) →
        c.total_size + (estimateSize v : Int) ≤ c.max_memory_bytes →
        (cacheSet c now k v ttl).2 = [(c.cache.headD (mkCacheEntry now k v ttl)).key])
    ∧ (∀ (now : Nat) (front : List (String × PyVal)) (lk : String) (lv : PyVal)
        (mb : Nat),
        ((front ++ [(lk, lv)]).map Prod.fst).Nodup →
        sumSizes (front ++ [(lk, lv)]) ≤ (mb : Int) * 1024 * 1024 →
        (setManyTrace (emptyCache front.length mb) now (front ++ [(lk, lv)])).2
          = List.replicate front.length []
            ++ [[((front ++ [(lk, lv)]).map Prod.fst).headD ""]]) := by
  refine ⟨cacheGet_wf, cacheSet_wf, cacheClear_wf, ?_, lru_insert_scenario⟩
  intro c now k v ttl hmax hlen hfresh hbud
  obtain ⟨hev, _⟩ := cacheSet_full_evicts_lru c now k v ttl hfresh hlen hbud
  rw [hev]
  cases hc : c.cache with
  | nil =>
    rw [hc] at hlen
    simp at hlen
    omega
  | cons e0 t => simp

/-- Concrete well-formed cache used in the `lru_bounds_and_lru_eviction`
witness. -/
def c6Wit : LRUCache :=
  { max_size := 2, max_memory_bytes := 1048576
    cache := [mkCacheEntry 0 "a" (.bytes 1) none], total_size := 1 }

/-- Witness for `lru_bounds_and_lru_eviction`: a concrete `get` preserves
well-formedness, and inserting three distinct keys into a 2-entry cache
evicts exactly the first key on the third insert. -/
theorem lru_bounds_and_lru_eviction_witness :
    CacheWf (cacheGet c6Wit 0 "a").2
    ∧ (setManyTrace (emptyCache 2 1) 0
        [("a", PyVal.bytes 1), ("b", PyVal.bytes 2), ("c", PyVal.bytes 3)]).2
      = List.replicate 2 [] ++ [["a"]] := by
  constructor
  · exact lru_bounds_and_lru_eviction.1 c6Wit 0 "a" (by decide)
  · have h := lru_bounds_and_lru_eviction.2.2.2.2 0
      [("a", PyVal.bytes 1), ("b", PyVal.bytes 2)] "c" (PyVal.bytes 3) 1
      (by decide) (by decide)
    simpa using h

/-! ## StateManager (`operate/state/manager.py`), over the in-memory
`MemoryStateStore` backend. Values of the store are either user values
(`save_state`) or persisted snapshot records (`create_checkpoint` writes the
snapshot itself under `_snapshots/{id}`); the user value type `V` is a
parameter. -/

/-- A stored value: a user value or a persisted `StateSnapshot` record
(`asdict(snapshot)`). -/
inductive SVal (V : Type) where
  | user (v : V)
  | snapVal (id : String) (timestamp : Nat) (data : List (String × SVal V))

/-- An in-memory `StateSnapshot` (`manager.py`, kept in `self._snapshots`). -/
structure Snapshot (V : Type) where
  id : String
  timestamp : Nat
  data : List (String × SVal V)

/-- The stored form of a snapshot. -/
def Snapshot.asStored {V : Type} (s : Snapshot V) : SVal V :=
  .snapVal s.id s.timestamp s.data

/-- One `MemoryStateStore` slot: value plus optional absolute expiry
(`datetime.utcnow() + timedelta(seconds=ttl)` when a truthy TTL is given). -/
structure StoreEntry (V : Type) where
  key : String
  val : SVal V
  expiry : Option Nat

/-- `MemoryStateStore.get`: a missing key is `None`; an entry past its expiry
is deleted lazily and reads as `None`. Returns the value and the (possibly
shrunken) store. -/
def storeGet {V : Type} (st : List (StoreEntry V)) (now : Nat) (k : String) :
    Option (SVal V) × List (StoreEntry V) :=
  match st.find? (fun e => e.key == k) with
  | none => (none, st)
  | some e =>
    match e.expiry with
    | some exp =>
      if exp < now then (none, st.filter (fun x => !(x.key == k)))
      else (some e.val, st)
    | none => (some e.val, st)

/-- The absolute expiry computed by `MemoryStateStore.set`: a falsy (absent
or zero) TTL stores no expiry. -/
def storeExpiry (now : Nat) : Option Nat → Option Nat
  | some t => if t == 0 then none else some (now + t)
  | none => none

/-- `MemoryStateStore.set`: an existing key is overwritten in place, a new
key appended. -/
def storeSet {V : Type} (st : List (StoreEntry V)) (now : Nat) (k : String)
    (v : SVal V) (ttl : Option Nat) : List (StoreEntry V) :=
  if st.any (fun e => e.key == k) then
    st.map (fun e => if e.key == k then ⟨k, v, storeExpiry now ttl⟩ else e)
  else st ++ [⟨k, v, storeExpiry now ttl⟩]

/-- `MemoryStateStore.delete`. -/
def storeDelete {V : Type} (st : List (StoreEntry V)) (k : String) :
    List (StoreEntry V) :=
  st.filter (fun e => !(e.key == k))

/-- `MemoryStateStore.keys` with the default pattern `"*"` (matches every
key). -/
def storeKeys {V : Type} (st : List (StoreEntry V)) : List String :=
  st.map (fun e => e.key)

/-- One queued transaction operation (`("set", key, value)` or
`("delete", key, None)`). -/
inductive TxnOp (V : Type) where
  | set (key : String) (v : V)
  | del (key : String)

/-- An open `StateTransaction`. -/
structure StateTransaction (V : Type) where
  id : String
  operations : List (TxnOp V)
  timestamp : Nat
  committed : Bool

/-- State of a `StateManager` over the in-memory backend: the default TTL of
the backend configuration (`backend.ttl`, used by non-transactional
`save_state`), the store, the in-memory snapshot dict, and the current
transaction. -/
structure StateMgr (V : Type) where
  ttl : Nat := 3600
  store : List (StoreEntry V) := []
  snapshots : List (String × Snapshot V) := []
  current_transaction : Option (StateTransaction V) := none

/-- `StateManager.save_state`: queued while a transaction is open, otherwise
written through with the backend's default TTL. -/
def saveState {V : Type} (m : StateMgr V) (now : Nat) (k : String) (v : V) :
    StateMgr V :=
  match m.current_transaction with
  | some t =>
    { m with
        current_transaction := some { t with operations := t.operations ++ [.set k v] } }
  | none => { m with store := storeSet m.store now k (.user v) (some m.ttl) }

/-- `StateManager.load_state`: reads the underlying store directly (also
while a transaction is open). -/
def loadState {V : Type} (m : StateMgr V) (now : Nat) (k : String) :
    Option (SVal V) × StateMgr V :=
  ((storeGet m.store now k).1, { m with store := (storeGet m.store now k).2 })

/-- `StateManager.delete_state`: queued while a transaction is open. -/
def deleteState {V : Type} (m : StateMgr V) (k : String) : StateMgr V :=
  match m.current_transaction with
  | some t =>
    { m with
        current_transaction := some { t with operations := t.operations ++ [.del k] } }
  | none => { m with store := storeDelete m.store k }

/-- The capture loop of `create_checkpoint`: get every enumerated key
(threading the store, since expired entries are lazily deleted) and record
the non-`None` values in order. -/
def captureData {V : Type} (now : Nat) :
    List String → List (StoreEntry V) → List (String × SVal V) × List (StoreEntry V)
  | [], st => ([], st)
  | k :: ks, st =>
    let g := storeGet st now k
    let rest := captureData now ks g.2
    match g.1 with
    | some v => ((k, v) :: rest.1, rest.2)
    | none => rest

/-- `StateManager.create_checkpoint`: enumerate all keys, capture their
values into a snapshot, remember it in `_snapshots`, and persist it under
`_snapshots/{id}` (with no TTL). The fresh UUID is a parameter `cid`. -/
def createCheckpoint {V : Type} (cid : String) (m : StateMgr V) (now : Nat) :
    String × StateMgr V :=
  let cap := captureData now (storeKeys m.store) m.store
  let snap : Snapshot V := ⟨cid, now, cap.1⟩
  (cid,
    { m with
        store := storeSet cap.2 now ("_snapshots/" ++ cid) snap.asStored none
        snapshots := dictSet m.snapshots cid snap })

/-- The per-key step of the deletion phase of `restore_checkpoint`: keys in
the reserved `_snapshots/` namespace are kept, every other key is deleted. -/
def restoreDeleteStep {V : Type} (acc : List (StoreEntry V)) (k : String) :
    List (StoreEntry V) :=
  if k.startsWith "_snapshots/" then acc else storeDelete acc k

/-- The per-entry step of the rewrite phase of `restore_checkpoint`: each
snapshot key is written back with no TTL. -/
def restoreSetStep {V : Type} (now : Nat) (acc : List (StoreEntry V))
    (kv : String × SVal V) : List (StoreEntry V) :=
  storeSet acc now kv.1 kv.2 none

/-- `StateManager.restore_checkpoint`: find the snapshot (in memory first,
else from the persisted `_snapshots/{id}` record), delete every key not in
the `_snapshots/` namespace, then rewrite every snapshot key (with no TTL).
An unknown checkpoint raises `ValueError`. -/
def restoreCheckpoint {V : Type} (m : StateMgr V) (now : Nat) (cid : String) :
    Except String (StateMgr V) :=
  let found : Option (Snapshot V) × List (StoreEntry V) :=
    match pyGet m.snapshots cid with
    | some s => (some s, m.store)
    | none =>
      match storeGet m.store now ("_snapshots/" ++ cid) with
      | (some (.snapVal i ts d), st1) => (some ⟨i, ts, d⟩, st1)
      | (_, st1) => (none, st1)
  match found with
  | (none, _) => .error ("Checkpoint " ++ cid ++ " not found")
  | (some snap, st1) =>
    let st2 := (storeKeys st1).foldl restoreDeleteStep st1
    let st3 := snap.data.foldl (restoreSetStep now) st2
    .ok { m with store := st3 }

/-- `StateManager.begin_transaction`: re-entrant begin raises. The fresh UUID
is a parameter `tid`. -/
def beginTransaction {V : Type} (tid : String) (m : StateMgr V) (now : Nat) :
    Except String (String × StateMgr V) :=
  match m.current_transaction with
  | some _ => .error "Transaction already in progress"
  | none =>
    .ok (tid,
      { m with
          current_transaction := some { id := tid, operations := [], timestamp := now, committed := false } })

/-- `StateManager.commit_transaction`: apply queued operations in order (sets
use the backend's default TTL), then close the transaction. -/
def commitTransaction {V : Type} (m : StateMgr V) (now : Nat) (tid : String) :
    Except String (StateMgr V) :=
  match m.current_transaction with
  | some t =>
    if t.id == tid then
      .ok { m with
        store := t.operations.foldl (fun acc op =>
          match op with
          | .set k v => storeSet acc now k (.user v) (some m.ttl)
          | .del k => storeDelete acc k) m.store
        current_transaction := none }
    else .error ("Invalid transaction " ++ tid)
  | none => .error ("Invalid transaction " ++ tid)

/-- `StateManager.rollback_transaction`: discard the queued operations. -/
def rollbackTransaction {V : Type} (m : StateMgr V) (tid : String) :
    Except String (StateMgr V) :=
  match m.current_transaction with
  | some t =>
    if t.id == tid then .ok { m with current_transaction := none }
    else .error ("Invalid transaction " ++ tid)
  | none => .error ("Invalid transaction " ++ tid)

/-- A plain (non-transactional API) mutation of the key space, as in the C3
round-trip scenario. -/
inductive Mut (V : Type) where
  | save (k : String) (v : V) (now : Nat)
  | del (k : String)

/-- Apply a sequence of `save_state`/`delete_state` calls. -/
def applyMuts {V : Type} (m : StateMgr V) : List (Mut V) → StateMgr V
  | [] => m
  | .save k v now :: rest => applyMuts (saveState m now k v) rest
  | .del k :: rest => applyMuts (deleteState m k) rest

/-! ### StateManager lemmas -/

/-- C9: while a transaction is open, `save_state` only queues the write and
`load_state` reads the underlying store directly, so a key written inside the
transaction still reads its pre-transaction value before commit (no
read-your-own-writes); `delete_state` is likewise queued. -/
theorem txn_no_read_your_own_writes {V : Type} (m : StateMgr V)
    (t : StateTransaction V) (now now2 : Nat) (k : String) (v : V)
    (ht : m.current_transaction = some t) :
    (saveState m now k v).store = m.store
    ∧ (loadState (saveState m now k v) now2 k).1 = (loadState m now2 k).1
    ∧ (saveState m now k v).current_transaction
        = some { t with operations := t.operations ++ [TxnOp.set k v] }
    ∧ (deleteState m k).store = m.store := by
  unfold saveState deleteState loadState
  rw [ht]
  exact ⟨rfl, rfl, rfl, rfl⟩

/-- Concrete open transaction for the C9 witness. -/
def c9Txn : StateTransaction Nat :=
  { id := "t1", operations := [], timestamp := 0, committed := false }

/-- Concrete manager with an open transaction for the C9 witness. -/
def c9Mgr : StateMgr Nat :=
  { store := [⟨"k", .user 5, none⟩], current_transaction := some c9Txn }

/-- Witness for `txn_no_read_your_own_writes` at a concrete manager. -/
theorem txn_no_read_your_own_writes_witness :
    (saveState c9Mgr 1 "k" 7).store = c9Mgr.store
    ∧ (loadState (saveState c9Mgr 1 "k" 7) 2 "k").1 = (loadState c9Mgr 2 "k").1 :=
  ⟨(txn_no_read_your_own_writes c9Mgr c9Txn 1 2 "k" 7 rfl).1,
    (txn_no_read_your_own_writes c9Mgr c9Txn 1 2 "k" 7 rfl).2.1⟩

theorem pyGet_dictSet_self {α : Type} (k : String) (v : α) :
    ∀ m : List (String × α), pyGet (dictSet m k v) k = some v := by
  intro m
  unfold dictSet
  split
  case isTrue h =>
    induction m with
    | nil => simp at h
    | cons p t ih =>
      by_cases hp : p.1 = k
      · unfold pyGet
        rw [List.map_cons, if_pos (by simp [hp]),
          List.find?_cons_of_pos _ (by simp)]
        rfl
      · have h' : t.any (fun p => p.1 == k) = true := by
          simp only [List.any_cons, Bool.or_eq_true, beq_iff_eq] at h
          rcases h with h | h
          · exact absurd h hp
          · exact h
        have hrec := ih h'
        unfold pyGet at hrec ⊢
        rw [List.map_cons, if_neg (by simp [hp]),
          List.find?_cons_of_neg _ (by simp [hp])]
        exact hrec
  case isFalse h =>
    induction m with
    | nil => simp [pyGet]
    | cons p t ih =>
      simp only [List.any_cons, Bool.or_eq_true, beq_iff_eq, not_or] at h
      unfold pyGet at ih ⊢
      rw [List.cons_append, List.find?_cons_of_neg _ (by simp [h.1])]
      exact ih (by simp [h.2])

theorem saveState_snapshots {V : Type} (m : StateMgr V) (now : Nat)
    (k : String) (v : V) : (saveState m now k v).snapshots = m.snapshots := by
  unfold saveState
  cases m.current_transaction <;> rfl

theorem deleteState_snapshots {V : Type} (m : StateMgr V) (k : String) :
    (deleteState m k).snapshots = m.snapshots := by
  unfold deleteState
  cases m.current_transaction <;> rfl

theorem applyMuts_snapshots {V : Type} (muts : List (Mut V)) :
    ∀ m : StateMgr V, (applyMuts m muts).snapshots = m.snapshots := by
  induction muts with
  | nil => intro m; rfl
  | cons mu rest ih =>
    intro m
    cases mu with
    | save k v now =>
      show (applyMuts (saveState m now k v) rest).snapshots = m.snapshots
      rw [ih, saveState_snapshots]
    | del k =>
      show (applyMuts (deleteState m k) rest).snapshots = m.snapshots
      rw [ih, deleteState_snapshots]

theorem captureData_keys_sublist {V : Type} (now : Nat) (ks : List String) :
    ∀ st : List (StoreEntry V),
      ((captureData now ks st).1.map Prod.fst).Sublist ks := by
  induction ks with
  | nil => intro st; simp [captureData]
  | cons k ks ih =>
    intro st
    unfold captureData
    dsimp only
    cases hg : (storeGet st now k).1 with
    | some v => simpa using List.Sublist.cons₂ k (ih _)
    | none => exact (ih _).trans (List.sublist_cons_self k ks)

theorem foldDelete_subset {V : Type} (ks : List String) :
    ∀ (st : List (StoreEntry V)) (e : StoreEntry V),
      e ∈ ks.foldl restoreDeleteStep st → e ∈ st := by
  induction ks with
  | nil => intro st e he; exact he
  | cons k ks ih =>
    intro st e he
    rw [List.foldl_cons] at he
    have h1 : e ∈ restoreDeleteStep st k := by
      have h2 := ih _ e he
      exact h2
    unfold restoreDeleteStep at h1
    split at h1
    · exact h1
    · exact (List.mem_filter.mp h1).1

theorem foldDelete_removed {V : Type} (ks : List String) :
    ∀ (st : List (StoreEntry V)) (e : StoreEntry V),
      e ∈ ks.foldl restoreDeleteStep st →
      e.key.startsWith "_snapshots/" = false → e.key ∉ ks := by
  induction ks with
  | nil => intro st e _ _ h; cases h
  | cons k ks ih =>
    intro st e he hpfx hmem
    rw [List.foldl_cons] at he
    rcases List.mem_cons.mp hmem with hk | hk
    · have h1 : e ∈ restoreDeleteStep st k := foldDelete_subset ks _ e he
      unfold restoreDeleteStep at h1
      split at h1
      case isTrue hks =>
        rw [hk] at hpfx
        rw [hpfx] at hks
        cases hks
      case isFalse hks =>
        have := (List.mem_filter.mp h1).2
        rw [hk] at this
        simp at this
    · exact ih _ e he hpfx hk

theorem foldDelete_all_prefix {V : Type} (st1 : List (StoreEntry V))
    (e : StoreEntry V) (he : e ∈ (storeKeys st1).foldl restoreDeleteStep st1) :
    e.key.startsWith "_snapshots/" = true := by
  by_contra h
  have hpfx : e.key.startsWith "_snapshots/" = false := by
    cases hb : e.key.startsWith "_snapshots/"
    · rfl
    · exact absurd hb h
  have h1 : e ∈ st1 := foldDelete_subset _ _ _ he
  have h2 : e.key ∈ storeKeys st1 :=
    List.mem_map_of_mem (fun e => e.key) h1
  exact foldDelete_removed _ _ _ he hpfx h2

theorem find?_storeSet_self {V : Type} (now : Nat) (k : String) (v : SVal V) :
    ∀ st : List (StoreEntry V),
      (storeSet st now k v none).find? (fun e => e.key == k)
        = some ⟨k, v, none⟩ := by
  intro st
  unfold storeSet
  split
  case isTrue h =>
    induction st with
    | nil => simp at h
    | cons p t ih =>
      by_cases hp : p.key = k
      · rw [List.map_cons, if_pos (by simp [hp]),
          List.find?_cons_of_pos _ (by simp)]
        rfl
      · have h' : t.any (fun e => e.key == k) = true := by
          simp only [List.any_cons, Bool.or_eq_true, beq_iff_eq] at h
          rcases h with h | h
          · exact absurd h hp
          · exact h
        have hrec := ih h'
        rw [List.map_cons, if_neg (by simp [hp]),
          List.find?_cons_of_neg _ (by simp [hp])]
        exact hrec
  case isFalse h =>
    induction st with
    | nil => simp [storeExpiry]
    | cons p t ih =>
      simp only [List.any_cons, Bool.or_eq_true, beq_iff_eq, not_or] at h
      rw [List.cons_append, List.find?_cons_of_neg _ (by simp [h.1])]
      exact ih (by simp [h.2])

theorem find?_storeSet_ne {V : Type} (now : Nat) (k k2 : String) (v : SVal V)
    (ttl : Option Nat) (hne : k2 ≠ k) :
    ∀ st : List (StoreEntry V),
      (storeSet st now k v ttl).find? (fun e => e.key == k2)
        = st.find? (fun e => e.key == k2) := by
  intro st
  unfold storeSet
  split
  case isTrue h =>
    clear h
    induction st with
    | nil => rfl
    | cons p t ih =>
      by_cases hp : p.key = k
      · rw [List.map_cons, if_pos (by simp [hp]),
          List.find?_cons_of_neg _ (by simp [Ne.symm hne]),
          List.find?_cons_of_neg _ (by simp [hp, Ne.symm hne])]
        exact ih
      · rw [List.map_cons, if_neg (by simp [hp])]
        cases hc : (p.key == k2) with
        | true =>
          rw [List.find?_cons_of_pos _ (by exact hc),
            List.find?_cons_of_pos _ (by exact hc)]
        | false =>
          rw [List.find?_cons_of_neg _ (by simp [hc]),
            List.find?_cons_of_neg _ (by simp [hc])]
          exact ih
  case isFalse h =>
    clear h
    induction st with
    | nil => simp [Ne.symm hne, storeExpiry]
    | cons p t ih =>
      rw [List.cons_append]
      cases hc : (p.key == k2) with
      | true =>
        rw [List.find?_cons_of_pos _ (by exact hc),
          List.find?_cons_of_pos _ (by exact hc)]
      | false =>
        rw [List.find?_cons_of_neg _ (by simp [hc]),
          List.find?_cons_of_neg _ (by simp [hc])]
        exact ih

theorem foldSets_find?_not_mem {V : Type} (now : Nat) (k : String)
    (data : List (String × SVal V)) (hk : k ∉ data.map Prod.fst) :
    ∀ st : List (StoreEntry V),
      (data.foldl (restoreSetStep now) st).find? (fun e => e.key == k)
        = st.find? (fun e => e.key == k) := by
  induction data with
  | nil => intro st; rfl
  | cons kv rest ih =>
    intro st
    simp only [List.map_cons, List.mem_cons, not_or] at hk
    rw [List.foldl_cons, ih hk.2, restoreSetStep,
      find?_storeSet_ne now kv.1 k kv.2 none hk.1]

theorem foldSets_get {V : Type} (now now3 : Nat) (k : String) (v : SVal V) :
    ∀ (data : List (String × SVal V)) (st : List (StoreEntry V)),
      (k, v) ∈ data → (data.map Prod.fst).Nodup →
      (storeGet (data.foldl (restoreSetStep now) st) now3 k).1 = some v := by
  intro data
  induction data with
  | nil => intro st h _; cases h
  | cons kv rest ih =>
    intro st hmem hnd
    rw [List.map_cons, List.nodup_cons] at hnd
    rcases List.mem_cons.mp hmem with heq | hmem2
    · subst heq
      have hknotin : k ∉ rest.map Prod.fst := by simpa using hnd.1
      rw [List.foldl_cons]
      unfold storeGet
      rw [foldSets_find?_not_mem now k rest hknotin]
      rw [show restoreSetStep now st (k, v) = storeSet st now k v none from rfl]
      rw [find?_storeSet_self now k v st]
    · rw [List.foldl_cons]
      exact ih _ hmem2 hnd.2

theorem foldSets_get_none {V : Type} (now now3 : Nat) (k : String)
    (data : List (String × SVal V)) (st2 : List (StoreEntry V))
    (hk : k ∉ data.map Prod.fst)
    (hall : ∀ e ∈ st2, e.key.startsWith "_snapshots/" = true)
    (hkpfx : ¬ k.startsWith "_snapshots/") :
    (storeGet (data.foldl (restoreSetStep now) st2) now3 k).1 = none := by
  unfold storeGet
  rw [foldSets_find?_not_mem now k data hk]
  have hnone : st2.find? (fun e => e.key == k) = none := by
    apply List.find?_eq_none.mpr
    intro e he
    simp only [beq_iff_eq]
    intro hek
    apply hkpfx
    rw [← hek]
    exact hall e he
  rw [hnone]

/-- C3: a checkpoint followed by an arbitrary sequence of
`save_state`/`delete_state` mutations followed by `restore_checkpoint` of
that checkpoint succeeds and yields exactly the snapshotted key space: every
key recorded in the snapshot reads back its snapshot value, and every key
outside the reserved `_snapshots/` namespace that is not in the snapshot
(including all keys created after the checkpoint) is absent — a full
replace, not a merge. The hypothesis is that the store's keys are distinct
(an invariant of every dict-backed store). -/
theorem checkpoint_restore_roundtrip {V : Type} (m : StateMgr V) (cid : String)
    (now0 now2 now3 : Nat) (muts : List (Mut V))
    (hwf : (m.store.map (fun e => e.key)).Nodup) :
    ∃ m3 : StateMgr V,
      restoreCheckpoint (applyMuts (createCheckpoint cid m now0).2 muts) now2 cid
        = .ok m3
      ∧ (∀ (k : String) (v : SVal V),
          (k, v) ∈ (captureData now0 (storeKeys m.store) m.store).1 →
          (storeGet m3.store now3 k).1 = some v)
      ∧ (∀ k : String,
          k ∉ (captureData now0 (storeKeys m.store) m.store).1.map Prod.fst →
          ¬ k.startsWith "_snapshots/" →
          (storeGet m3.store now3 k).1 = none) := by
  have hnd_data : ((captureData now0 (storeKeys m.store) m.store).1.map Prod.fst).Nodup :=
    (captureData_keys_sublist now0 (storeKeys m.store) m.store).nodup hwf
  have hfound : pyGet (applyMuts (createCheckpoint cid m now0).2 muts).snapshots cid
      = some ⟨cid, now0, (captureData now0 (storeKeys m.store) m.store).1⟩ := by
    rw [applyMuts_snapshots]
    exact pyGet_dictSet_self cid _ m.snapshots
  unfold restoreCheckpoint
  rw [hfound]
  dsimp only
  refine ⟨_, rfl, ?_, ?_⟩
  · intro k v hkv
    exact foldSets_get now2 now3 k v _ _ hkv hnd_data
  · intro k hk hpfx
    refine foldSets_get_none now2 now3 k _ _ hk ?_ hpfx
    intro e he
    exact foldDelete_all_prefix _ e he

/-- Concrete manager for the C3 witness. -/
def c3Mgr : StateMgr Nat :=
  { store := [⟨"x", .user 1, none⟩, ⟨"y", .user 2, none⟩] }

/-- Concrete post-checkpoint mutations for the C3 witness: create a key,
delete a snapshotted key, overwrite a snapshotted key. -/
def c3Muts : List (Mut Nat) := [.save "z" 9 5, .del "y", .save "x" 7 6]

/-- Witness for `checkpoint_restore_roundtrip` at a concrete manager and
mutation sequence. -/
theorem checkpoint_restore_roundtrip_witness :
    ∃ m3 : StateMgr Nat,
      restoreCheckpoint (applyMuts (createCheckpoint "c1" c3Mgr 0).2 c3Muts) 8 "c1"
        = .ok m3
      ∧ (∀ (k : String) (v : SVal Nat),
          (k, v) ∈ (captureData 0 (storeKeys c3Mgr.store) c3Mgr.store).1 →
          (storeGet m3.store 9 k).1 = some v)
      ∧ (∀ k : String,
          k ∉ (captureData 0 (storeKeys c3Mgr.store) c3Mgr.store).1.map Prod.fst →
          ¬ k.startsWith "_snapshots/" →
          (storeGet m3.store 9 k).1 = none) :=
  checkpoint_restore_roundtrip c3Mgr "c1" 0 8 9 c3Muts (by decide)

/-! ## OperationOrchestrator (`operate/core/orchestrator.py`)

The external `ActionExecutor` is a parameter: `execAction opId attempt`
gives the outcome of `action_interface.execute_action` on the attempt where
the operation's `retry_count` equals `attempt` (an exception and a timeout
are caught by distinct handlers but treated identically). The security
validator is a parameter `validate` (pure: the same action validates the
same way on every retry, matching a fixed rule set). Hooks are modelled by
their boolean results (`pre_validation`, `post_validation`); `rollback` is
`some b` when a rollback hook exists and `b` tells whether invoking it
succeeds (a raising rollback hook is logged and falls through to FAILED;
the checkpoint-restore call itself is modelled as succeeding). Checkpoint
ids are drawn from a counter in the orchestrator state. The event trace
records checkpoint creation, executor invocations, backoff sleeps, rollback
runs and checkpoint restores; `asyncio.gather` waves are linearized in list
order. `result.duration` bookkeeping and the learned-pattern persistence
(every 10th sample) are not modelled beyond a pattern counter. -/

/-- Operation status, from `interfaces/base.py` (`OperationStatus`). -/
inductive OperationStatus where
  | pending
  | running
  | success
  | failed
  | cancelled
  | rolled_back
deriving DecidableEq, Repr

/-- The error attached to an `OperationResult` by the orchestrator. -/
inductive ErrK where
  | permissionError (reason : Option String)
  | preValidationFailed
  | postValidationFailed
  | execError
  | timeoutError
deriving DecidableEq, Repr

/-- An operation result, from `interfaces/base.py` (`OperationResult`). -/
structure OperationResult where
  operation_id : String
  status : OperationStatus
  result : Option MVal := none
  error : Option ErrK := none
deriving DecidableEq, Repr

/-- An operation, from `orchestrator.py` (`Operation`). -/
structure Operation where
  id : String
  action : Action
  pre_validation : Option Bool := none
  post_validation : Option Bool := none
  rollback : Option Bool := none
  dependencies : List String := []
  metadata : List (String × MVal) := []
  retry_count : Nat := 0
  max_retries : Nat := 3
  timeout : Option Nat := none
deriving DecidableEq, Repr

/-- Outcome of one external `execute_action` call (possibly bounded by
`asyncio.wait_for`): a returned result, a raised exception, or a timeout. -/
inductive ExecOutcome where
  | ok (r : OperationResult)
  | exn
  | timeout
deriving DecidableEq, Repr

/-- The orchestrator's external collaborators. -/
structure OrchestratorEnv where
  validate : Action → Bool × Option String
  execAction : String → Nat → ExecOutcome
  enable_learning : Bool := true

/-- Mutable orchestrator-side state threaded through executions. -/
structure OrchestratorState where
  checkpoint_counter : Nat := 0
  patterns_count : Nat := 0
deriving DecidableEq, Repr

/-- Observable events of an execution. -/
inductive Ev where
  | checkpointCreated (cid : String)
  | executorCall (opId : String)
  | backoffSleep (seconds : Nat)
  | rollbackRun (opId : String)
  | checkpointRestored (cid : String)
deriving DecidableEq, Repr

/-- Outcome of one attempt of `execute_operation` before failure handling:
either a final result (security rejection, or the executor's returned result
passing post-validation), or a raised exception together with the
checkpoint id of this attempt's context. -/
inductive AttemptOut where
  | final (r : OperationResult)
  | raised (e : ErrK) (checkpoint_id : Option String)
deriving DecidableEq, Repr

/-- Steps 3–6 of one `execute_operation` attempt, after security and
pre-validation have passed: checkpoint creation when a rollback hook exists,
the bounded executor call, post-validation, learning on success. -/
def attemptRun (env : OrchestratorEnv) (st : OrchestratorState)
    (op : Operation) : AttemptOut × OrchestratorState × List Ev :=
  let cp : Option String × OrchestratorState × List Ev :=
    if op.rollback.isSome then
      (some (toString st.checkpoint_counter),
        { st with checkpoint_counter := st.checkpoint_counter + 1 },
        [.checkpointCreated (toString st.checkpoint_counter)])
    else (none, st, [])
  match env.execAction op.id op.retry_count with
  | .exn => (.raised .execError cp.1, cp.2.1, cp.2.2 ++ [.executorCall op.id])
  | .timeout => (.raised .timeoutError cp.1, cp.2.1, cp.2.2 ++ [.executorCall op.id])
  | .ok r =>
    match op.post_validation with
    | some false =>
      (.raised .postValidationFailed cp.1, cp.2.1, cp.2.2 ++ [.executorCall op.id])
    | _ =>
      if env.enable_learning && (r.status == .success) then
        (.final r, { cp.2.1 with patterns_count := cp.2.1.patterns_count + 1 },
          cp.2.2 ++ [.executorCall op.id])
      else (.final r, cp.2.1, cp.2.2 ++ [.executorCall op.id])

/-- One attempt of `execute_operation` (steps 1–6: security validation,
pre-validation, then `attemptRun`). Failures surface as `AttemptOut.raised`
and are handled by the retry/rollback logic of `executeOperation`. -/
def executeAttempt (env : OrchestratorEnv) (st : OrchestratorState)
    (op : Operation) : AttemptOut × OrchestratorState × List Ev :=
  if (env.validate op.action).1 = false then
    (.final { operation_id := op.id, status := .failed
              error := some (.permissionError (env.validate op.action).2) }, st, [])
  else
    match op.pre_validation with
    | some false => (.raised .preValidationFailed none, st, [])
    | _ => attemptRun env st op

/-- `execute_operation` with `_handle_failure`: on a raised attempt, retry
(incrementing `retry_count`, sleeping `2 ** retry_count`, re-entering from
the top) while `retry_count < max_retries`; once exhausted, run the rollback
hook and restore the checkpoint when both exist (ROLLED_BACK on success,
FAILED when the rollback hook raises), else FAILED with the last error.
Returns the result, the operation with its final `retry_count`, the state,
and the event trace. -/
def executeOperation (env : OrchestratorEnv) (st : OrchestratorState)
    (op : Operation) :
    OperationResult × Operation × OrchestratorState × List Ev :=
  match executeAttempt env st op with
  | (.final r, st1, evs) => (r, op, st1, evs)
  | (.raised e cpid, st1, evs) =>
    if h : op.retry_count < op.max_retries then
      let op1 := { op with retry_count := op.retry_count + 1 }
      let rec1 := executeOperation env st1 op1
      (rec1.1, rec1.2.1, rec1.2.2.1,
        evs ++ Ev.backoffSleep (2 ^ op1.retry_count) :: rec1.2.2.2)
    else
      match op.rollback, cpid with
      | some rOk, some cid =>
        if rOk then
          ({ operation_id := op.id, status := .rolled_back, error := some e },
            op, st1, evs ++ [.rollbackRun op.id, .checkpointRestored cid])
        else
          ({ operation_id := op.id, status := .failed, error := some e },
            op, st1, evs ++ [.rollbackRun op.id])
      | _, _ =>
        ({ operation_id := op.id, status := .failed, error := some e },
          op, st1, evs)
termination_by op.max_retries - op.retry_count
decreasing_by
  omega

/-- `execute_sequence`: run operations one at a time in list order, stopping
after the first FAILED result whose operation's metadata does not request
`continue_on_failure` (the failed result is still appended). -/
def executeSequence (env : OrchestratorEnv) (st : OrchestratorState) :
    List Operation → List OperationResult × OrchestratorState × List Ev
  | [] => ([], st, [])
  | op :: rest =>
    let r := executeOperation env st op
    if r.1.status == .failed
        && !(truthyOpt (pyGet op.metadata "continue_on_failure")) then
      ([r.1], r.2.2.1, r.2.2.2)
    else
      let rs := executeSequence env r.2.2.1 rest
      (r.1 :: rs.1, rs.2.1, r.2.2.2 ++ rs.2.2)

/-- Python hashing of an `Operation` value. `Operation` is declared as a
plain mutable `@dataclass` (`orchestrator.py` line 24: default `eq=True`,
not frozen, no `unsafe_hash` and no explicit `__hash__`), so the dataclass
machinery sets `Operation.__hash__ = None` and instances are unhashable:
`hash(op)` raises `TypeError: unhashable type: 'Operation'` — modelled as
`none`. -/
def opHash : Operation → Option Nat := fun _ => none

/-- One insertion step of the dict comprehension in
`_build_dependency_graph`: inserting a key into a dict first hashes it, so
the step fails (propagating `none`) whenever the key is unhashable. -/
def depGraphStep (acc : Option (List (Operation × List String)))
    (op : Operation) : Option (List (Operation × List String)) :=
  match acc, opHash op with
  | some g, some _ => some (g ++ [(op, op.dependencies)])
  | _, _ => none

/-- `_build_dependency_graph`: the dict comprehension
`{op: op.dependencies.copy() for op in operations}` keys the graph by the
`Operation` values themselves. Each insertion hashes its key, so the
comprehension yields the empty dict for an empty batch and raises
`TypeError` (here `none`) on the first operation of any non-empty batch,
`Operation` being unhashable. -/
def buildDependencyGraph (ops : List Operation) :
    Option (List (Operation × List String)) :=
  ops.foldl depGraphStep (some [])

/-- Run one wave (`asyncio.gather` linearized in list order). -/
def runWave (env : OrchestratorEnv) (st : OrchestratorState) :
    List Operation → List OperationResult × OrchestratorState × List Ev
  | [] => ([], st, [])
  | op :: rest =>
    let r := executeOperation env st op
    let rs := runWave env r.2.2.1 rest
    (r.1 :: rs.1, rs.2.1, r.2.2.2 ++ rs.2.2)

/-- The per-wave graph update of `execute_parallel`: executed operations are
removed from the graph and their ids discarded from every remaining
dependency set. -/
def waveUpdate (graph taken : List (Operation × List String)) :
    List (Operation × List String) :=
  (graph.filter (fun e => !(taken.contains e))).map
    (fun e => (e.1, e.2.filter (fun d => !((taken.map (fun t => t.1.id)).contains d))))

theorem waveUpdate_length_lt (graph taken : List (Operation × List String))
    (t : Operation × List String) (htg : t ∈ graph) (htt : t ∈ taken) :
    (waveUpdate graph taken).length < graph.length := by
  unfold waveUpdate
  rw [List.length_map, List.length_filter_lt_length_iff_exists]
  exact ⟨t, htg, by simp [htt]⟩

/-- The wave loop of `execute_parallel`: while the graph is nonempty, gather
the operations whose dependency sets are empty; if none are ready, raise
`RuntimeError("Circular dependency detected in operations")` (the final
`Bool` component is the raised flag); otherwise execute up to `max_parallel`
ready operations, remove them and update the remaining dependency sets. On a
raise the Python caller loses the accumulated `results` list, but the
executed operations and their side effects are real; the model returns the
results and event trace accumulated before the raise. `max_parallel` is
required positive (the Python loop would never terminate otherwise). -/
def executeParallelGo (env : OrchestratorEnv) (maxPar : Nat)
    (hmp : 0 < maxPar) (st : OrchestratorState)
    (graph : List (Operation × List String)) :
    List OperationResult × OrchestratorState × List Ev × Bool :=
  if hG : graph.isEmpty then ([], st, [], false)
  else
    if hR : (graph.filter (fun e => e.2.isEmpty)).isEmpty then ([], st, [], true)
    else
      let taken := (graph.filter (fun e => e.2.isEmpty)).take maxPar
      let wave := runWave env st (taken.map (fun e => e.1))
      let rec1 := executeParallelGo env maxPar hmp wave.2.1 (waveUpdate graph taken)
      (wave.1 ++ rec1.1, rec1.2.1, wave.2.2 ++ rec1.2.2.1, rec1.2.2.2)
termination_by graph.length
decreasing_by
  have hRne : graph.filter (fun e => e.2.isEmpty) ≠ [] := by
    intro hemp
    rw [hemp] at hR
    exact hR rfl
  obtain ⟨t, ts, hts⟩ := List.exists_cons_of_ne_nil hRne
  have htg : t ∈ graph := by
    have : t ∈ graph.filter (fun e => e.2.isEmpty) := by
      rw [hts]
      exact List.mem_cons_self t ts
    exact (List.mem_filter.mp this).1
  have htt : t ∈ (graph.filter (fun e => e.2.isEmpty)).take maxPar := by
    rw [hts]
    cases maxPar with
    | zero => cases hmp
    | succ m =>
      rw [List.take_succ_cons]
      exact List.mem_cons_self t _
  exact waveUpdate_length_lt graph _ t htg htt

/-- `execute_parallel`: build the dependency graph, then run the wave loop.
Graph construction raises `TypeError` for every non-empty batch (the graph
dict is keyed by unhashable `Operation` values); the raise propagates out of
`execute_parallel` before the wave loop is entered, so no operation is
executed and no results exist (the final `Bool` is the raised flag). Only
the empty batch reaches the wave loop, with an empty graph. -/
def executeParallel (env : OrchestratorEnv) (maxPar : Nat) (hmp : 0 < maxPar)
    (st : OrchestratorState) (ops : List Operation) :
    List OperationResult × OrchestratorState × List Ev × Bool :=
  match buildDependencyGraph ops with
  | none => ([], st, [], true)
  | some graph => executeParallelGo env maxPar hmp st graph

/-- `dependsOn ops x y`: some operation of the batch with id `x` lists `y`
among its dependencies. -/
def dependsOn (ops : List Operation) (x y : String) : Bool :=
  ops.any (fun op => op.id == x && op.dependencies.contains y)

/-- The successive pairs of a cyclic chain: each id paired with its
successor, wrapping around. -/
def cyclePairs (ids : List String) : List (String × String) :=
  ids.zip (ids.tail ++ ids.take 1)

/-- `isDepCycle ops ids`: the nonempty id list `ids` forms a dependency
cycle within `ops` (each id depends on its cyclic successor). -/
def isDepCycle (ops : List Operation) (ids : List String) : Bool :=
  !ids.isEmpty && (cyclePairs ids).all (fun p => dependsOn ops p.1 p.2)

/-! ### Orchestrator lemmas: retry behavior (C2, C4) -/

theorem executeAttempt_preval (env : OrchestratorEnv) (st : OrchestratorState)
    (op : Operation) (hval : (env.validate op.action).1 = true)
    (hpre : op.pre_validation = some false) :
    executeAttempt env st op = (.raised .preValidationFailed none, st, []) := by
  unfold executeAttempt
  rw [if_neg (by rw [hval]; simp), hpre]

theorem executeAttempt_raises_of_exec (env : OrchestratorEnv)
    (st : OrchestratorState) (op : Operation)
    (hval : (env.validate op.action).1 = true)
    (hpre : op.pre_validation ≠ some false)
    (hrb : op.rollback = none)
    (hexec : env.execAction op.id op.retry_count = .exn
      ∨ env.execAction op.id op.retry_count = .timeout) :
    ∃ err, executeAttempt env st op = (.raised err none, st, [Ev.executorCall op.id]) := by
  unfold executeAttempt
  rw [if_neg (by rw [hval]; simp)]
  cases hpv : op.pre_validation with
  | some b =>
    cases b with
    | false => exact absurd hpv hpre
    | true =>
      rcases hexec with he | he
      · exact ⟨.execError, by simp [attemptRun, hrb, he]⟩
      · exact ⟨.timeoutError, by simp [attemptRun, hrb, he]⟩
  | none =>
    rcases hexec with he | he
    · exact ⟨.execError, by simp [attemptRun, hrb, he]⟩
    · exact ⟨.timeoutError, by simp [attemptRun, hrb, he]⟩

theorem executeAttempt_postval (env : OrchestratorEnv) (st : OrchestratorState)
    (op : Operation) (r : OperationResult)
    (hval : (env.validate op.action).1 = true)
    (hpre : op.pre_validation ≠ some false)
    (hrb : op.rollback = none)
    (hpost : op.post_validation = some false)
    (hexec : env.execAction op.id op.retry_count = .ok r) :
    executeAttempt env st op
      = (.raised .postValidationFailed none, st, [Ev.executorCall op.id]) := by
  unfold executeAttempt
  rw [if_neg (by rw [hval]; simp)]
  cases hpv : op.pre_validation with
  | some b =>
    cases b with
    | false => exact absurd hpv hpre
    | true => simp [attemptRun, hrb, hexec, hpost]
  | none => simp [attemptRun, hrb, hexec, hpost]

theorem executeOperation_raises_aux (env : OrchestratorEnv)
    (P : Ev → Prop) :
    ∀ (fuel : Nat) (st : OrchestratorState) (op : Operation),
      op.max_retries - op.retry_count = fuel →
      op.retry_count ≤ op.max_retries →
      (∀ (st2 : OrchestratorState) (n : Nat), op.retry_count ≤ n →
        n ≤ op.max_retries →
        ∃ err evs, executeAttempt env st2 { op with retry_count := n }
            = (.raised err none, st2, evs)
          ∧ ∀ e ∈ evs, P e) →
      (executeOperation env st op).1.status = .failed
      ∧ (executeOperation env st op).2.1.retry_count = op.max_retries
      ∧ ∀ e ∈ (executeOperation env st op).2.2.2,
          P e ∨ ∃ j, e = Ev.backoffSleep (2 ^ j)
            ∧ op.retry_count < j ∧ j ≤ op.max_retries := by
  intro fuel
  induction fuel with
  | zero =>
    intro st op hf hle H
    obtain ⟨err, evs, heq, hP⟩ := H st op.retry_count le_rfl hle
    have hself : ({ op with retry_count := op.retry_count } : Operation) = op := rfl
    rw [hself] at heq
    have hmax : op.retry_count = op.max_retries := by omega
    rw [executeOperation, heq]
    simp only
    rw [dif_neg (by omega)]
    cases hrb : op.rollback with
    | none => exact ⟨rfl, hmax, fun e he => Or.inl (hP e he)⟩
    | some rOk => exact ⟨rfl, hmax, fun e he => Or.inl (hP e he)⟩
  | succ n ih =>
    intro st op hf hle H
    have hlt : op.retry_count < op.max_retries := by omega
    obtain ⟨err, evs, heq, hP⟩ := H st op.retry_count le_rfl hle
    have hself : ({ op with retry_count := op.retry_count } : Operation) = op := rfl
    rw [hself] at heq
    rw [executeOperation, heq]
    simp only
    rw [dif_pos hlt]
    have hrec := ih st ({ op with retry_count := op.retry_count + 1 })
      (by simp; omega) (by simp; omega)
      (by
        intro st2 n2 hn2 hn2max
        simp only at hn2 hn2max
        have := H st2 n2 (by omega) hn2max
        exact this)
    refine ⟨hrec.1, by rw [hrec.2.1], ?_⟩
    intro e he
    simp only [List.mem_append, List.mem_cons] at he
    rcases he with he | he | he
    · exact Or.inl (hP e he)
    · exact Or.inr ⟨op.retry_count + 1, by simpa using he, by omega, by omega⟩
    · rcases hrec.2.2 e he with hp | ⟨j, hj, hj1, hj2⟩
      · exact Or.inl hp
      · refine Or.inr ⟨j, hj, ?_, ?_⟩
        · simp only at hj1
          omega
        · simp only at hj2
          omega

/-- C4: an operation with no rollback hook whose execution raises or times
out on every attempt (security allowing it and pre-validation not failing,
so the executor is actually reached) ends FAILED with `retry_count` driven
up to exactly `max_retries`; the trace shows only executor calls for this
operation and backoff sleeps of `2 ^ j` for the successive retry counts
`retry_count < j ≤ max_retries`, so `retry_count` only increases and never
exceeds `max_retries`. -/
theorem retries_exhaust_no_rollback (env : OrchestratorEnv)
    (st : OrchestratorState) (op : Operation)
    (hval : (env.validate op.action).1 = true)
    (hpre : op.pre_validation ≠ some false)
    (hrb : op.rollback = none)
    (hexec : ∀ n, env.execAction op.id n = .exn ∨ env.execAction op.id n = .timeout)
    (hle : op.retry_count ≤ op.max_retries) :
    (executeOperation env st op).1.status = .failed
    ∧ (executeOperation env st op).2.1.retry_count = op.max_retries
    ∧ op.retry_count ≤ (executeOperation env st op).2.1.retry_count
    ∧ ∀ e ∈ (executeOperation env st op).2.2.2,
        e = Ev.executorCall op.id
        ∨ ∃ j, e = Ev.backoffSleep (2 ^ j)
            ∧ op.retry_count < j ∧ j ≤ op.max_retries := by
  have h := executeOperation_raises_aux env (fun e => e = Ev.executorCall op.id)
    (op.max_retries - op.retry_count) st op rfl hle
    (by
      intro st2 n hn hnmax
      obtain ⟨err, heq⟩ := executeAttempt_raises_of_exec env st2
        { op with retry_count := n } hval hpre hrb (hexec n)
      exact ⟨err, [Ev.executorCall op.id], heq, by simp⟩)
  exact ⟨h.1, h.2.1, by rw [h.2.1]; omega, h.2.2⟩

/-- Environment for the C4 witness: validation passes and every executor
call raises. -/
def c4Env : OrchestratorEnv :=
  { validate := fun _ => (true, none), execAction := fun _ _ => .exn }

/-- Operation for the C4 witness: no rollback hook, two retries allowed. -/
def c4Op : Operation :=
  { id := "w4", action := { id := "w4", type := .click }, max_retries := 2 }

/-- Witness for `retries_exhaust_no_rollback` at a concrete operation. -/
theorem retries_exhaust_no_rollback_witness :
    (executeOperation c4Env {} c4Op).1.status = .failed
    ∧ (executeOperation c4Env {} c4Op).2.1.retry_count = c4Op.max_retries :=
  ⟨(retries_exhaust_no_rollback c4Env {} c4Op rfl (by simp [c4Op])
      rfl (fun n => Or.inl rfl) (by simp [c4Op])).1,
    (retries_exhaust_no_rollback c4Env {} c4Op rfl (by simp [c4Op])
      rfl (fun n => Or.inl rfl) (by simp [c4Op])).2.1⟩

theorem executeOperation_raises_count (env : OrchestratorEnv) :
    ∀ (fuel : Nat) (st : OrchestratorState) (op : Operation),
      op.max_retries - op.retry_count = fuel →
      op.retry_count ≤ op.max_retries →
      (∀ (st2 : OrchestratorState) (n : Nat), op.retry_count ≤ n →
        n ≤ op.max_retries →
        ∃ err, executeAttempt env st2 { op with retry_count := n }
            = (.raised err none, st2, [Ev.executorCall op.id])) →
      ((executeOperation env st op).2.2.2).count (Ev.executorCall op.id)
        = op.max_retries - op.retry_count + 1 := by
  intro fuel
  induction fuel with
  | zero =>
    intro st op hf hle H
    obtain ⟨err, heq⟩ := H st op.retry_count le_rfl hle
    have hself : ({ op with retry_count := op.retry_count } : Operation) = op := rfl
    rw [hself] at heq
    rw [executeOperation, heq]
    simp only
    rw [dif_neg (by omega)]
    cases hrb : op.rollback with
    | none => simp; omega
    | some rOk => cases rOk <;> simp <;> omega
  | succ n ih =>
    intro st op hf hle H
    have hlt : op.retry_count < op.max_retries := by omega
    obtain ⟨err, heq⟩ := H st op.retry_count le_rfl hle
    have hself : ({ op with retry_count := op.retry_count } : Operation) = op := rfl
    rw [hself] at heq
    rw [executeOperation, heq]
    simp only
    rw [dif_pos hlt]
    have hrec := ih st ({ op with retry_count := op.retry_count + 1 })
      (by simp; omega) (by simp; omega)
      (by
        intro st2 n2 hn2 hn2max
        simp only at hn2 hn2max
        exact H st2 n2 (by omega) hn2max)
    simp only [List.count_cons, List.count_append, List.singleton_append] at hrec ⊢
    simp only [beq_iff_eq, reduceCtorEq, if_false, if_true]
    rw [hrec]
    omega

/-- Environment for the C2 theorems: validation passes and every executor
call raises (the executor is never reached when pre-validation fails). -/
def c2Env : OrchestratorEnv :=
  { validate := fun _ => (true, none), execAction := fun _ _ => .exn }

/-- Operation whose pre-validation hook always returns false. -/
def c2Op : Operation :=
  { id := "p2", action := { id := "p2", type := .click }
    pre_validation := some false, max_retries := 3 }

/-- C2 counterexample: a pre-validation failure raises `ValueError`, which
the generic exception handler retries — `retry_count` is driven from 0 to
`max_retries = 3` and backoff sleeps occur, contradicting the claim that a
validation failure returns FAILED without any retry (no increment, no
sleep). -/
theorem validation_failure_retried_counterexample :
    (executeOperation c2Env {} c2Op).1.status = .failed
    ∧ (executeOperation c2Env {} c2Op).2.1.retry_count = 3
    ∧ Ev.backoffSleep 2 ∈ (executeOperation c2Env {} c2Op).2.2.2 := by
  refine ⟨?_, ?_, ?_⟩ <;> simp [executeOperation, executeAttempt, attemptRun, c2Op, c2Env]

/-- Environment for the post-validation half of the C2 witness: validation
passes and every executor call returns normally. -/
def c2EnvB : OrchestratorEnv :=
  { validate := fun _ => (true, none)
    execAction := fun i _ => .ok { operation_id := i, status := .success } }

/-- Operation whose post-validation hook always returns false (no rollback
hook). -/
def c2OpB : Operation :=
  { id := "q2", action := { id := "q2", type := .click }
    post_validation := some false, max_retries := 2 }

/-- C2 (amended): a failing validation hook raises and is handled by the
generic retry path, so it IS retried with exponential backoff — contrary to
the claim. For an operation with no rollback hook the retries exhaust:
with an always-false `pre_validation` the operation ends FAILED with
`retry_count = max_retries` and the external executor is never invoked on
any attempt; with an always-false `post_validation` (the executor returning
normally) the operation likewise ends FAILED with
`retry_count = max_retries`, the executor being invoked exactly once per
attempt — `max_retries - retry_count + 1` executor calls in the trace. (An
operation with a rollback hook takes the rollback path at exhaustion
instead and is outside this statement.) -/
theorem validation_failure_retried :
    (∀ (env : OrchestratorEnv) (st : OrchestratorState) (op : Operation),
      (env.validate op.action).1 = true → op.pre_validation = some false →
      op.retry_count ≤ op.max_retries →
      (executeOperation env st op).1.status = .failed
      ∧ (executeOperation env st op).2.1.retry_count = op.max_retries
      ∧ ∀ i, Ev.executorCall i ∉ (executeOperation env st op).2.2.2)
    ∧ (∀ (env : OrchestratorEnv) (st : OrchestratorState) (op : Operation),
      (env.validate op.action).1 = true → op.pre_validation ≠ some false →
      op.post_validation = some false → op.rollback = none →
      (∀ n, ∃ r, env.execAction op.id n = .ok r) →
      op.retry_count ≤ op.max_retries →
      (executeOperation env st op).1.status = .failed
      ∧ (executeOperation env st op).2.1.retry_count = op.max_retries
      ∧ ((executeOperation env st op).2.2.2).count (Ev.executorCall op.id)
          = op.max_retries - op.retry_count + 1) := by
  constructor
  · intro env st op hval hpre hle
    have h := executeOperation_raises_aux env (fun _ => False)
      (op.max_retries - op.retry_count) st op rfl hle
      (by
        intro st2 n hn hnmax
        exact ⟨.preValidationFailed, [],
          executeAttempt_preval env st2 _ hval hpre, by simp⟩)
    refine ⟨h.1, h.2.1, ?_⟩
    intro i hmem
    rcases h.2.2 _ hmem with hp | ⟨j, hj, _, _⟩
    · exact hp
    · simp at hj
  · intro env st op hval hpre hpost hrb hexec hle
    have h := executeOperation_raises_aux env
      (fun e => e = Ev.executorCall op.id)
      (op.max_retries - op.retry_count) st op rfl hle
      (by
        intro st2 n hn hnmax
        obtain ⟨r, hr⟩ := hexec n
        exact ⟨.postValidationFailed, [Ev.executorCall op.id],
          executeAttempt_postval env st2 _ r hval hpre hrb hpost hr, by simp⟩)
    have hc := executeOperation_raises_count env
      (op.max_retries - op.retry_count) st op rfl hle
      (by
        intro st2 n hn hnmax
        obtain ⟨r, hr⟩ := hexec n
        exact ⟨.postValidationFailed,
          executeAttempt_postval env st2 _ r hval hpre hrb hpost hr⟩)
    exact ⟨h.1, h.2.1, hc⟩

/-- Witness for `validation_failure_retried`: both halves at concrete
operations — a failing pre-validation (no executor call, retried to
exhaustion) and a failing post-validation (one executor call per attempt,
retried to exhaustion). -/
theorem validation_failure_retried_witness :
    ((executeOperation c2Env {} c2Op).1.status = .failed
      ∧ (executeOperation c2Env {} c2Op).2.1.retry_count = c2Op.max_retries
      ∧ ∀ i, Ev.executorCall i ∉ (executeOperation c2Env {} c2Op).2.2.2)
    ∧ ((executeOperation c2EnvB {} c2OpB).1.status = .failed
      ∧ (executeOperation c2EnvB {} c2OpB).2.1.retry_count = c2OpB.max_retries
      ∧ ((executeOperation c2EnvB {} c2OpB).2.2.2).count
            (Ev.executorCall c2OpB.id)
          = c2OpB.max_retries - c2OpB.retry_count + 1) :=
  ⟨validation_failure_retried.1 c2Env {} c2Op rfl rfl (by simp [c2Op]),
    validation_failure_retried.2 c2EnvB {} c2OpB rfl (by simp [c2OpB]) rfl rfl
      (fun n => ⟨_, rfl⟩) (by simp [c2OpB])⟩

/-! ### Orchestrator lemmas: sequencing (C7, C10) -/

/-- C7: `execute_sequence` runs operations one at a time in list order; when
the second operation's result is FAILED and its metadata does not request
`continue_on_failure` (while the first does not stop the sequence), the
returned results are exactly the first two — the failed result included —
the state is the one after the second operation, and the event trace is the
concatenation of the two operations' traces: nothing after the failed
operation executes. -/
theorem sequence_stops_at_first_failure (env : OrchestratorEnv)
    (st : OrchestratorState) (A B : Operation) (rest : List Operation)
    (hA : ((executeOperation env st A).1.status == OperationStatus.failed
      && !(truthyOpt (pyGet A.metadata "continue_on_failure"))) = false)
    (hB : ((executeOperation env (executeOperation env st A).2.2.1 B).1.status
        == OperationStatus.failed
      && !(truthyOpt (pyGet B.metadata "continue_on_failure"))) = true) :
    executeSequence env st (A :: B :: rest)
      = ([(executeOperation env st A).1,
          (executeOperation env (executeOperation env st A).2.2.1 B).1],
        (executeOperation env (executeOperation env st A).2.2.1 B).2.2.1,
        (executeOperation env st A).2.2.2
          ++ (executeOperation env (executeOperation env st A).2.2.1 B).2.2.2) := by
  simp only [executeSequence]
  rw [hA]
  simp only [Bool.false_eq_true, if_false]
  rw [hB]
  simp

/-- Environment for the C7 witness: only operation `sB` raises. -/
def c7Env : OrchestratorEnv :=
  { validate := fun _ => (true, none)
    execAction := fun i _ =>
      if i == "sB" then .exn else .ok { operation_id := i, status := .success } }

/-- First sequence operation of the C7 witness (succeeds). -/
def c7A : Operation :=
  { id := "sA", action := { id := "sA", type := .click }, max_retries := 0 }

/-- Second sequence operation of the C7 witness (fails, no
`continue_on_failure`). -/
def c7B : Operation :=
  { id := "sB", action := { id := "sB", type := .click }, max_retries := 0 }

/-- Third sequence operation of the C7 witness (never executed). -/
def c7C : Operation :=
  { id := "sC", action := { id := "sC", type := .click }, max_retries := 0 }

/-- Witness for `sequence_stops_at_first_failure` at a concrete three-element
sequence whose second operation fails. -/
theorem sequence_stops_at_first_failure_witness :
    executeSequence c7Env {} [c7A, c7B, c7C]
      = ([(executeOperation c7Env {} c7A).1,
          (executeOperation c7Env (executeOperation c7Env {} c7A).2.2.1 c7B).1],
        (executeOperation c7Env (executeOperation c7Env {} c7A).2.2.1 c7B).2.2.1,
        (executeOperation c7Env {} c7A).2.2.2
          ++ (executeOperation c7Env (executeOperation c7Env {} c7A).2.2.1 c7B).2.2.2) :=
  sequence_stops_at_first_failure c7Env {} c7A c7B [c7C]
    (by simp [executeOperation, executeAttempt, attemptRun, c7A, c7Env, pyGet, truthyOpt])
    (by simp [executeOperation, executeAttempt, attemptRun, c7A, c7B, c7Env, pyGet, truthyOpt])

/-- C10: `execute_sequence` stops early only on status FAILED — an operation
whose result is ROLLED_BACK does not stop the sequence, even when its
metadata does not request `continue_on_failure`: the remaining operations
still execute and their results are appended. -/
theorem sequence_continues_after_rolled_back (env : OrchestratorEnv)
    (st : OrchestratorState) (B : Operation) (rest : List Operation)
    (hB : (executeOperation env st B).1.status = OperationStatus.rolled_back) :
    executeSequence env st (B :: rest)
      = ((executeOperation env st B).1
          :: (executeSequence env (executeOperation env st B).2.2.1 rest).1,
        (executeSequence env (executeOperation env st B).2.2.1 rest).2.1,
        (executeOperation env st B).2.2.2
          ++ (executeSequence env (executeOperation env st B).2.2.1 rest).2.2) := by
  simp only [executeSequence]
  rw [show ((executeOperation env st B).1.status == OperationStatus.failed
      && !(truthyOpt (pyGet B.metadata "continue_on_failure"))) = false by
    rw [hB]; rfl]
  simp

/-- Environment for the C10 witness: every executor call raises. -/
def c10Env : OrchestratorEnv :=
  { validate := fun _ => (true, none), execAction := fun _ _ => .exn }

/-- Operation for the C10 witness: a rollback hook and no retries, so the
exhausted failure rolls back and ends ROLLED_BACK. -/
def c10B : Operation :=
  { id := "rb", action := { id := "rb", type := .click }
    rollback := some true, max_retries := 0 }

/-- Follow-up operation for the C10 witness. -/
def c10C : Operation :=
  { id := "rc2", action := { id := "rc2", type := .click }, max_retries := 0 }

/-- Witness for `sequence_continues_after_rolled_back`: the sequence
continues past a ROLLED_BACK result. -/
theorem sequence_continues_after_rolled_back_witness :
    executeSequence c10Env {} [c10B, c10C]
      = ((executeOperation c10Env {} c10B).1
          :: (executeSequence c10Env (executeOperation c10Env {} c10B).2.2.1 [c10C]).1,
        (executeSequence c10Env (executeOperation c10Env {} c10B).2.2.1 [c10C]).2.1,
        (executeOperation c10Env {} c10B).2.2.2
          ++ (executeSequence c10Env (executeOperation c10Env {} c10B).2.2.1 [c10C]).2.2) :=
  sequence_continues_after_rolled_back c10Env {} c10B [c10C]
    (by simp [executeOperation, executeAttempt, attemptRun, c10B, c10Env])

/-! ### Orchestrator lemmas: parallel execution and cycles (C1) -/

theorem foldl_depGraphStep_none (l : List Operation) :
    l.foldl depGraphStep none = none := by
  induction l with
  | nil => rfl
  | cons a t ih =>
    rw [List.foldl_cons]
    exact ih

theorem buildDependencyGraph_cons (op : Operation) (rest : List Operation) :
    buildDependencyGraph (op :: rest) = none := by
  unfold buildDependencyGraph
  rw [List.foldl_cons]
  exact foldl_depGraphStep_none rest

theorem cyclePairs_ne_nil (ids : List String) (h : ids ≠ []) :
    cyclePairs ids ≠ [] := by
  match ids with
  | [] => exact absurd rfl h
  | [a] => simp [cyclePairs]
  | a :: b :: t => simp [cyclePairs]

theorem isDepCycle_ops_ne_nil (ops : List Operation) (ids : List String)
    (hcyc : isDepCycle ops ids = true) : ops ≠ [] := by
  unfold isDepCycle at hcyc
  rw [Bool.and_eq_true] at hcyc
  have hids : ids ≠ [] := by
    intro h0
    rw [h0] at hcyc
    simp at hcyc
  obtain ⟨p, hp⟩ := List.exists_mem_of_ne_nil _ (cyclePairs_ne_nil ids hids)
  have hd := List.all_eq_true.mp hcyc.2 p hp
  unfold dependsOn at hd
  rw [List.any_eq_true] at hd
  obtain ⟨op, hop, _⟩ := hd
  exact List.ne_nil_of_mem hop

/-- Environment for the C1 witness: validation passes and every executor
call returns SUCCESS. -/
def c1Env : OrchestratorEnv :=
  { validate := fun _ => (true, none)
    execAction := fun i _ => .ok { operation_id := i, status := .success } }

/-- Build a parallel-batch operation with given id and dependencies. -/
def c1Op (i : String) (deps : List String) : Operation :=
  { id := i, action := { id := i, type := .click }, dependencies := deps
    max_retries := 0 }

/-- A batch with a dependency cycle between `b` and `c`, plus an independent
operation `a`. -/
def c1Ops : List Operation := [c1Op "a" [], c1Op "b" ["c"], c1Op "c" ["b"]]

/-- C1: for every batch whose dependency sets contain a cycle (hence a
non-empty batch), `execute_parallel` raises before any operation of the
batch begins executing: the raised flag is set, the external
`ActionExecutor` is never invoked (the event trace is empty, so no
operation reaches RUNNING) and no partial results are produced. In the
source the raise is a `TypeError` at dependency-graph construction —
`Operation` is an unhashable plain dataclass, so the graph dict keyed by
`Operation` values cannot be built for any non-empty batch — rather than
the cycle-detection `RuntimeError`, which is unreachable. -/
theorem parallel_cycle_no_execution (env : OrchestratorEnv) (maxPar : Nat)
    (hmp : 0 < maxPar) (st : OrchestratorState) (ops : List Operation)
    (ids : List String) (hcyc : isDepCycle ops ids = true) :
    (executeParallel env maxPar hmp st ops).2.2.2 = true
    ∧ (executeParallel env maxPar hmp st ops).1 = []
    ∧ (executeParallel env maxPar hmp st ops).2.2.1 = [] := by
  obtain ⟨op, rest, rfl⟩ :=
    List.exists_cons_of_ne_nil (isDepCycle_ops_ne_nil ops ids hcyc)
  unfold executeParallel
  rw [buildDependencyGraph_cons]
  exact ⟨rfl, rfl, rfl⟩

/-- Witness for `parallel_cycle_no_execution` at the concrete batch `c1Ops`
with the cycle `b ↔ c`. -/
theorem parallel_cycle_no_execution_witness :
    (executeParallel c1Env 4 (by omega) {} c1Ops).2.2.2 = true
    ∧ (executeParallel c1Env 4 (by omega) {} c1Ops).1 = []
    ∧ (executeParallel c1Env 4 (by omega) {} c1Ops).2.2.1 = [] :=
  parallel_cycle_no_execution c1Env 4 (by omega) {} c1Ops ["b", "c"] (by decide)

end Operate
